import Mathlib

/-!
Verification development for the `my_express` HTTP dispatch engine
(`src/index.js`, `src/utils.js`).  The JavaScript source is embedded
shallowly: pure helpers become Lean functions, the request pipeline
becomes a fuel-indexed interpreter over an explicit state, numbers are
`Nat`/`Int`, and JavaScript exceptions are `Except`/`Option` values.
-/

namespace MyExpress

/-! ## JavaScript errors

Every value thrown anywhere in the embedded code.  `headersSent` models
the Node `ERR_HTTP_HEADERS_SENT` error thrown by `res.setHeader` /
`res.writeHead` after the headers were flushed; `uriMalformed` models the
`URIError` thrown by `decodeURIComponent`; `enoent` models a filesystem
error whose `code` property is `"ENOENT"`; `str s` models `new Error(s)`
and arbitrary user errors. -/

inductive JsErr where
  | headersSent
  | uriMalformed
  | enoent
  | str (s : String)
deriving DecidableEq

/-! ## `decodeURIComponent` (ECMA-262 `Decode`)

`utils.js` line 51 calls the platform's `decodeURIComponent` on each
parameter-bound path segment.  The ECMA-262 algorithm is modelled here:
`%XY` escapes are parsed as bytes, byte sequences beginning a multi-byte
UTF-8 encoding must be completed by further `%XY` escapes and must form a
strictly valid (shortest-form, non-surrogate) encoding; any violation
throws `URIError`, modelled as `none`.  Characters other than `%` pass
through unchanged. -/

/-- The value of one hexadecimal digit (`0-9`, `A-F`, `a-f`), by
character code. -/
def hexVal (c : Char) : Option Nat :=
  let n := c.toNat
  if 48 ≤ n ∧ n ≤ 57 then some (n - 48)
  else if 65 ≤ n ∧ n ≤ 70 then some (n - 55)
  else if 97 ≤ n ∧ n ≤ 102 then some (n - 87)
  else none

/-- Parse one `%XY` escape from the front of the character list. -/
def pctByte : List Char → Option (Nat × List Char)
  | '%' :: h :: l :: rest => do
    let a ← hexVal h
    let b ← hexVal l
    pure (16 * a + b, rest)
  | _ => none

/-- Parse one `%XY` escape whose byte must lie in `[lo, hi]`. -/
def pctInRange (lo hi : Nat) (cs : List Char) : Option (Nat × List Char) := do
  let (b, rest) ← pctByte cs
  if lo ≤ b ∧ b ≤ hi then pure (b, rest) else none

/-- Decode a single code point starting at a `%` escape, returning it with
the remaining input; `none` is a thrown `URIError`. -/
def decodeOne (cs : List Char) : Option (Char × List Char) := do
  let (b, rest) ← pctByte cs
  if b ≤ 0x7F then
    pure (Char.ofNat b, rest)
  else if 0xC2 ≤ b ∧ b ≤ 0xDF then
    let (b1, r1) ← pctInRange 0x80 0xBF rest
    pure (Char.ofNat ((b - 0xC0) * 64 + (b1 - 0x80)), r1)
  else if b = 0xE0 then
    let (b1, r1) ← pctInRange 0xA0 0xBF rest
    let (b2, r2) ← pctInRange 0x80 0xBF r1
    pure (Char.ofNat ((b - 0xE0) * 4096 + (b1 - 0x80) * 64 + (b2 - 0x80)), r2)
  else if 0xE1 ≤ b ∧ b ≤ 0xEC then
    let (b1, r1) ← pctInRange 0x80 0xBF rest
    let (b2, r2) ← pctInRange 0x80 0xBF r1
    pure (Char.ofNat ((b - 0xE0) * 4096 + (b1 - 0x80) * 64 + (b2 - 0x80)), r2)
  else if b = 0xED then
    let (b1, r1) ← pctInRange 0x80 0x9F rest
    let (b2, r2) ← pctInRange 0x80 0xBF r1
    pure (Char.ofNat ((b - 0xE0) * 4096 + (b1 - 0x80) * 64 + (b2 - 0x80)), r2)
  else if 0xEE ≤ b ∧ b ≤ 0xEF then
    let (b1, r1) ← pctInRange 0x80 0xBF rest
    let (b2, r2) ← pctInRange 0x80 0xBF r1
    pure (Char.ofNat ((b - 0xE0) * 4096 + (b1 - 0x80) * 64 + (b2 - 0x80)), r2)
  else if b = 0xF0 then
    let (b1, r1) ← pctInRange 0x90 0xBF rest
    let (b2, r2) ← pctInRange 0x80 0xBF r1
    let (b3, r3) ← pctInRange 0x80 0xBF r2
    pure (Char.ofNat ((b - 0xF0) * 262144 + (b1 - 0x80) * 4096 + (b2 - 0x80) * 64 + (b3 - 0x80)), r3)
  else if 0xF1 ≤ b ∧ b ≤ 0xF3 then
    let (b1, r1) ← pctInRange 0x80 0xBF rest
    let (b2, r2) ← pctInRange 0x80 0xBF r1
    let (b3, r3) ← pctInRange 0x80 0xBF r2
    pure (Char.ofNat ((b - 0xF0) * 262144 + (b1 - 0x80) * 4096 + (b2 - 0x80) * 64 + (b3 - 0x80)), r3)
  else if b = 0xF4 then
    let (b1, r1) ← pctInRange 0x80 0x8F rest
    let (b2, r2) ← pctInRange 0x80 0xBF r1
    let (b3, r3) ← pctInRange 0x80 0xBF r2
    pure (Char.ofNat ((b - 0xF0) * 262144 + (b1 - 0x80) * 4096 + (b2 - 0x80) * 64 + (b3 - 0x80)), r3)
  else
    none

/-- Strict decoding loop; `fuel` dominates the input length, each step
consumes at least one character. -/
def decodeCore : Nat → List Char → Option (List Char)
  | 0, _ => none
  | _ + 1, [] => some []
  | fuel + 1, c :: cs =>
    if c = '%' then do
      let (ch, rest) ← decodeOne (c :: cs)
      let tail ← decodeCore fuel rest
      pure (ch :: tail)
    else do
      let tail ← decodeCore fuel cs
      pure (c :: tail)

/-- `decodeURIComponent`: `none` models a thrown `URIError`. -/
def decodeURIComponent (s : String) : Option String :=
  (decodeCore (s.length + 1) s.data).map List.asString

/-! ## JavaScript string primitives

`split` (single-character separator), `startsWith` and `endsWith`, as
structural recursions over the character list (the Lean core versions
are compiled primitives that the kernel cannot evaluate). -/

def splitCharGo (sep : Char) : List Char → List Char → List (List Char)
  | acc, [] => [acc.reverse]
  | acc, c :: cs =>
    if c = sep then acc.reverse :: splitCharGo sep [] cs
    else splitCharGo sep (c :: acc) cs

/-- JavaScript `s.split(sep)` for a one-character separator: the list of
maximal runs between separators, including empty ones. -/
def jsSplit (s : String) (sep : Char) : List String :=
  (splitCharGo sep [] s.data).map List.asString

def charListStarts : List Char → List Char → Bool
  | [], _ => true
  | _ :: _, [] => false
  | p :: ps, c :: cs => if p = c then charListStarts ps cs else false

/-- JavaScript `s.startsWith(p)`. -/
def jsStartsWith (s p : String) : Bool :=
  charListStarts p.data s.data

/-- JavaScript `s.endsWith(p)`. -/
def jsEndsWith (s p : String) : Bool :=
  charListStarts p.data.reverse s.data.reverse

/-! ## JavaScript object-as-map helpers

`params[key] = v` and `Object.fromEntries` over a JavaScript object:
assigning an existing key updates the value in place (keeping its original
insertion position), otherwise the pair is appended. -/

def objInsert (ps : List (String × String)) (k v : String) : List (String × String) :=
  if ps.any (fun p => p.1 = k) then
    ps.map (fun p => if p.1 = k then (k, v) else p)
  else
    ps ++ [(k, v)]

def objFromEntries (l : List (String × String)) : List (String × String) :=
  l.foldl (fun acc p => objInsert acc p.1 p.2) []

/-! ## Lenient decoding for `URLSearchParams`

`findRoute` (utils.js line 38) builds the query map with
`new URLSearchParams(search)`.  That parser never throws: `+` becomes a
space and `%XY` escapes are decoded when they form valid sequences.  The
WHATWG parser substitutes U+FFFD for invalid byte sequences; here an
invalid escape is kept literally (no theorem below inspects such a
value). -/

def lenientCore : Nat → List Char → List Char
  | 0, cs => cs
  | _ + 1, [] => []
  | fuel + 1, c :: cs =>
    if c = '+' then ' ' :: lenientCore fuel cs
    else if c = '%' then
      match decodeOne (c :: cs) with
      | some (ch, rest) => ch :: lenientCore fuel rest
      | none => c :: lenientCore fuel cs
    else c :: lenientCore fuel cs

def lenientDecode (s : String) : String :=
  (lenientCore (s.length + 1) s.data).asString

/-- Split one `k=v` pair at the first `=`; a pair without `=` gets an
empty value. -/
def splitPair (seg : String) : String × String :=
  match jsSplit seg '=' with
  | [] => ("", "")
  | [k] => (lenientDecode k, "")
  | k :: vs => (lenientDecode k, lenientDecode (String.intercalate "=" vs))

/-- The ordered pair list produced by `URLSearchParams(search)`; empty
`&`-segments are skipped. -/
def parseSearch (s : String) : List (String × String) :=
  ((jsSplit s '&').filter (fun seg => seg ≠ "")).map splitPair

/-! ## The path matcher (`findRoute`, utils.js lines 34-70) -/

/-- `s.split("/")`, as in utils.js lines 42-43. -/
def segs (s : String) : List String := jsSplit s '/'

/-- The per-route segment loop of `findRoute` (utils.js lines 49-56),
with the `params` object threaded as an accumulator.
`Except.error` models a thrown `URIError` from `decodeURIComponent`;
`.ok none` models `match = false`; `.ok (some ps)` models a match with
parameter map `ps`.  The loop is only entered with equally long lists
(checked by `matchRoute`); the final catch-all mirrors the loop simply
running out of indices. -/
def matchSegs : List String → List String → List (String × String) →
    Except JsErr (Option (List (String × String)))
  | [], [], params => .ok (some params)
  | rp :: rps, up :: ups, params =>
    if jsStartsWith rp ":" then
      match decodeURIComponent up with
      | none => .error .uriMalformed
      | some v => matchSegs rps ups (objInsert params (rp.drop 1) v)
    else if rp = up then
      matchSegs rps ups params
    else
      .ok none
  | _, _, _ => .ok none

/-- Matching one route pattern against a request pathname
(utils.js lines 42-56): split both on `/`, require equal segment counts,
then run the segment loop. -/
def matchRoute (routeUrl pathname : String) :
    Except JsErr (Option (List (String × String))) :=
  if (segs routeUrl).length = (segs pathname).length then
    matchSegs (segs routeUrl) (segs pathname) []
  else
    .ok none

/-! ## The response context (`#setupResponse` and the Node stream)

`Res` models the observable state of `http.ServerResponse` plus the
helpers installed by `#setupResponse` (index.js lines 119-128).
`ended` is `res.writableEnded`; `headersSent` is `res.headersSent`
(set together with `ended` here because the embedded program only
flushes headers at `res.end`); `body` is the payload handed to the
terminating write.  Per the Node stream contract: `setHeader` and
`writeHead` throw once headers are sent, a second `end` is ignored,
and a `statusCode` assignment after the headers are sent no longer
affects the wire. -/

structure Res where
  ended : Bool := false
  headersSent : Bool := false
  statusCode : Nat := 200
  headers : List (String × String) := []
  body : String := ""
deriving DecidableEq

/-- `res.setHeader(h, v)`: throws `ERR_HTTP_HEADERS_SENT` after the
headers are out. -/
def Res.setHeaderE (res : Res) (h v : String) : Except JsErr Res :=
  if res.headersSent then .error .headersSent
  else .ok { res with headers := objInsert res.headers h v }

/-- `#setStatus` (index.js lines 254-257): `res.statusCode = code`. -/
def Res.setStatus (res : Res) (c : Nat) : Res :=
  if res.headersSent then res else { res with statusCode := c }

/-- `res.end(data)`: a second terminating write is ignored by the
stream. -/
def Res.endWith (res : Res) (s : String) : Res :=
  if res.ended then res
  else { res with ended := true, headersSent := true, body := s }

/-- The entries of Node's `http.STATUS_CODES` table reached by this
program (`#sendErrorResponse` only ever receives 404 and 500). -/
def statusCodes (c : Nat) : Option String :=
  if c = 200 then some "OK"
  else if c = 404 then some "Not Found"
  else if c = 500 then some "Internal Server Error"
  else none

/-- `#sendErrorResponse` (index.js lines 289-292):
`res.writeHead(code, {"Content-Type": "text/plain"})` followed by
`res.end(http.STATUS_CODES[code])`.  `writeHead` would throw if the
headers were already sent; the call sites reach it only with an open
response (the error pipeline checks `writableEnded` first), so that
branch leaves the response untouched here. -/
def sendErrorResponse (res : Res) (code : Nat) : Res :=
  if res.headersSent then res
  else
    Res.endWith
      { res with
        statusCode := code
        headers := objInsert res.headers "Content-Type" "text/plain"
        headersSent := true }
      ((statusCodes code).getD "")

/-- `#sendNotFoundResponse` (index.js lines 294-296). -/
def sendNotFoundResponse (res : Res) : Res :=
  sendErrorResponse res 404

/-! ## JSON values and the send helpers -/

inductive Json where
  | null
  | bool (b : Bool)
  | num (n : Int)
  | str (s : String)
  | arr (xs : List Json)
  | obj (fs : List (String × Json))

/-- `JSON.stringify` on strings: quote, escaping `\` and `"` (control
characters are not escaped here; no theorem below serializes one). -/
def jsonEscape (s : String) : String :=
  s.data.foldr
    (fun c acc =>
      if c = '\\' then "\\\\" ++ acc
      else if c = '"' then "\\\"" ++ acc
      else String.singleton c ++ acc) ""

mutual

def Json.stringify : Json → String
  | .null => "null"
  | .bool true => "true"
  | .bool false => "false"
  | .num n => toString n
  | .str s => "\"" ++ jsonEscape s ++ "\""
  | .arr xs => "[" ++ stringifyList xs ++ "]"
  | .obj fs => "\x7b" ++ stringifyObj fs ++ "\x7d"

def stringifyList : List Json → String
  | [] => ""
  | [x] => Json.stringify x
  | x :: xs => Json.stringify x ++ "," ++ stringifyList xs

def stringifyObj : List (String × Json) → String
  | [] => ""
  | [(k, v)] => "\"" ++ jsonEscape k ++ "\":" ++ Json.stringify v
  | (k, v) :: fs => "\"" ++ jsonEscape k ++ "\":" ++ Json.stringify v ++ "," ++ stringifyObj fs

end

/-- The argument of `res.send`: `typeof data === "object"` selects the
JSON path (index.js line 278), a string takes the plain-text path. -/
inductive SendData where
  | txt (s : String)
  | val (j : Json)

/-- `#jsonResponse` (index.js lines 284-287). -/
def jsonResponse (res : Res) (j : Json) : Except JsErr Res :=
  match res.setHeaderE "Content-Type" "application/json" with
  | .error e => .error e
  | .ok r => .ok (r.endWith j.stringify)

/-- `#sendResponse` (index.js lines 277-282). -/
def sendResponse (res : Res) (d : SendData) : Except JsErr Res :=
  match d with
  | .val j => jsonResponse res j
  | .txt s =>
    match res.setHeaderE "Content-Type" "text/plain" with
    | .error e => .error e
    | .ok r => .ok (r.endWith s)

/-! ## Middleware and handler bodies

A middleware/handler body is modelled as a function from the request and
the current response state to a list of response operations followed by a
control outcome — exactly the observable interface a `(req, res, next)`
function has.  Response operations (`ResAction`) go through the helpers
installed by `#setupResponse`; an operation that throws (e.g. `send`
after the headers are out) aborts the body with that error, leaving the
earlier operations' effects in place. -/

inductive ResAction where
  | status (c : Nat)
  | setH (h v : String)
  | send (d : SendData)
  | json (j : Json)

def applyAction (res : Res) : ResAction → Except JsErr Res
  | .status c => .ok (res.setStatus c)
  | .setH h v => res.setHeaderE h v
  | .send d => sendResponse res d
  | .json j => jsonResponse res j

/-- Run a body's operations in order; on a throw, keep the effects made
so far and report the error. -/
def applyActions : List ResAction → Res → Res × Option JsErr
  | [], res => (res, none)
  | a :: as, res =>
    match applyAction res a with
    | .ok r => applyActions as r
    | .error e => (res, some e)

/-- What a body does with its continuation after its response
operations: call `next()`, call `next(err)`, throw synchronously, or
return without calling `next` (ending the pipeline's progress). -/
inductive Behavior where
  | callNext
  | callNextErr (e : JsErr)
  | throwE (e : JsErr)
  | finish
deriving DecidableEq

/-- The request context built by `#setupRequest` (index.js lines
108-117) plus `req.params` (assigned at dispatch, index.js line 213).
`pathname`/`query` model `new URL(req.url, base)`: the path is the part
before `?`/`#` (WHATWG dot-segment and percent normalizations are not
modelled; no theorem below exercises them). -/
structure Req where
  method : String
  url : String
  pathname : String
  query : List (String × String)
  params : List (String × String) := []

/-- An ordinary `(req, res, next)` body. -/
def HFun := Req → Res → List ResAction × Behavior

/-- An arity-4 `(err, req, res, next)` error-middleware body. -/
def EFun := JsErr → Req → Res → List ResAction × Behavior

structure Route where
  method : String
  url : String
  handlers : List HFun := []

/-- The object `{ ...route, params, query, hash }` returned by
`findRoute` (utils.js lines 59-64). -/
structure RouteMatch where
  method : String
  url : String
  handlers : List HFun
  params : List (String × String)
  query : List (String × String)
  hash : Option String

/-- `const [urlWithoutHash, hash] = req.url.split('#')` then
`const [pathname, search] = urlWithoutHash.split('?')`
(utils.js lines 35-36). -/
def reqPathname (url : String) : String :=
  (jsSplit ((jsSplit url '#').headD "") '?').headD ""

def reqSearch (url : String) : Option String :=
  (jsSplit ((jsSplit url '#').headD "") '?')[1]?

def reqHash (url : String) : Option String :=
  (jsSplit url '#')[1]?

/-- `hash: hash || undefined` (utils.js line 63). -/
def reqHashField (url : String) : Option String :=
  match reqHash url with
  | some "" => none
  | h => h

/-- The query object `Object.fromEntries(new URLSearchParams(search || ''))`
(utils.js line 38). -/
def reqQuery (url : String) : List (String × String) :=
  objFromEntries (parseSearch ((reqSearch url).getD ""))

/-- The route-table scan of `findRoute` (utils.js lines 40-69), with the
URL already broken apart.  Scans registration order, first structural
match wins; a `URIError` thrown while matching any entry aborts the whole
scan. -/
def findRouteGo (method pathname : String)
    (query : List (String × String)) (hash : Option String) :
    List Route → Except JsErr (Option RouteMatch)
  | [] => .ok none
  | route :: rest =>
    if route.method = method then
      match matchRoute route.url pathname with
      | .error e => .error e
      | .ok (some params) =>
        .ok (some ⟨route.method, route.url, route.handlers, params, query, hash⟩)
      | .ok none => findRouteGo method pathname query hash rest
    else
      findRouteGo method pathname query hash rest

/-- `findRoute(routes, req)` (utils.js lines 34-70); `req` contributes
only `req.url` and `req.method`. -/
def findRoute (routes : List Route) (method url : String) :
    Except JsErr (Option RouteMatch) :=
  findRouteGo method (reqPathname url) (reqQuery url) (reqHashField url) routes

/-! ## Static file serving (`path.join`, `getMimeType`, the filesystem) -/

/-- Normalization core of POSIX `path.join`: drop empty and `.`
segments, resolve `..` against the stack (dropping it at the root of an
absolute path, keeping it in a relative one). -/
def normSegs (abs : Bool) : List String → List String → List String
  | acc, [] => acc.reverse
  | acc, s :: rest =>
    if s = "" ∨ s = "." then normSegs abs acc rest
    else if s = ".." then
      match acc with
      | [] => if abs then normSegs abs [] rest else normSegs abs [s] rest
      | t :: acc' =>
        if t = ".." then normSegs abs (s :: t :: acc') rest
        else normSegs abs acc' rest
    else normSegs abs (s :: acc) rest

/-- POSIX `path.join`: concatenate the non-empty arguments with `/` and
normalize, keeping a leading `/` (absolute first argument) and a single
trailing `/`. -/
def pathJoin (ps : List String) : String :=
  let raw := String.intercalate "/" (ps.filter (fun p => p ≠ ""))
  if raw = "" then "."
  else
    let abs := jsStartsWith raw "/"
    let core := normSegs abs [] (jsSplit raw '/')
    if core = [] then (if abs then "/" else ".")
    else
      (if abs then "/" else "") ++ String.intercalate "/" core ++
        (if jsEndsWith raw "/" then "/" else "")

/-- `path.extname`: the suffix of the basename from its last `.`, empty
for a leading-dot-only name. -/
def extname (p : String) : String :=
  let base := ((jsSplit p '/').getLastD "")
  match jsSplit base '.' with
  | [] => ""
  | [_] => ""
  | parts =>
    if jsStartsWith base "." ∧ parts.length = 2 then ""
    else "." ++ parts.getLastD ""

/-- `getMimeType` (utils.js lines 7-32). -/
def getMimeType (filePath : String) : String :=
  let ext := extname filePath
  if ext = ".html" then "text/html"
  else if ext = ".css" then "text/css"
  else if ext = ".js" then "application/javascript"
  else if ext = ".png" then "image/png"
  else if ext = ".jpg" then "image/jpeg"
  else if ext = ".gif" then "image/gif"
  else if ext = ".svg" then "image/svg+xml"
  else if ext = ".json" then "application/json"
  else if ext = ".pdf" then "application/pdf"
  else if ext = ".txt" then "text/plain"
  else if ext = ".xml" then "application/xml"
  else if ext = ".mp3" then "audio/mpeg"
  else if ext = ".mp4" then "video/mp4"
  else if ext = ".webm" then "video/webm"
  else if ext = ".woff" then "font/woff"
  else if ext = ".woff2" then "font/woff2"
  else if ext = ".ttf" then "font/ttf"
  else if ext = ".otf" then "font/otf"
  else if ext = ".ico" then "image/x-icon"
  else if ext = ".zip" then "application/zip"
  else "application/octet-stream"

inductive FsEntry where
  | file (content : String)
  | dir
deriving DecidableEq

/-- The filesystem visible to `fs.stat` / `fs.open`, as a finite map
from absolute paths to entries. -/
structure FileSys where
  entries : List (String × FsEntry) := []

/-- `fs.stat(p)`: `none` models a rejection with `code === "ENOENT"`. -/
def FileSys.statE (fs : FileSys) (p : String) : Option FsEntry :=
  (fs.entries.find? (fun e => e.1 = p)).map (fun e => e.2)

/-- `static(urlPath, dirPath, options)` recognizes these options
(index.js lines 259-275). -/
structure StaticOpts where
  maxAge : Option Nat := none
  mimeType : Option String := none

/-- `#sendFile` (index.js lines 259-275): set `Content-Type` (custom
MIME type wins over the extension table), optionally `Cache-Control`,
then open the file and pipe it into the response; a failing open writes
a plain 500.  `#sendFile` is invoked without `await`, so a header op
that throws surfaces as an unhandled rejection: nothing further happens
to the response.  Opening a directory succeeds and the subsequent
stream error is never handled, leaving the response as it stands. -/
def sendFile (fs : FileSys) (res : Res) (filePath : String) (opts : StaticOpts) : Res :=
  match res.setHeaderE "Content-Type" (opts.mimeType.getD (getMimeType filePath)) with
  | .error _ => res
  | .ok r1 =>
    match (match opts.maxAge with
      | some a => r1.setHeaderE "Cache-Control" ("public, max-age=" ++ toString a)
      | none => .ok r1 : Except JsErr Res) with
    | .error _ => r1
    | .ok r2 =>
      match fs.statE filePath with
      | some (.file c) => r2.endWith c
      | some .dir => r2
      | none =>
        (Res.endWith
          { r2 with
            statusCode := 500
            headers := objInsert r2.headers "Content-Type" "text/plain"
            headersSent := true }
          "Internal Server Error")

/-- `#serveStaticFile` (index.js lines 149-153): `stat`, then serve a
regular file or `throw new Error("Not a file")`. -/
def serveStaticFile (fs : FileSys) (res : Res) (filePath : String) (opts : StaticOpts) :
    Except JsErr Res :=
  match fs.statE filePath with
  | none => .error .enoent
  | some .dir => .error (.str "Not a file")
  | some (.file _) => .ok (sendFile fs res filePath opts)

/-- `#resolveStaticFilePath` (index.js lines 143-147): the raw
`req.url` (query string included) joined onto the directory, except
that `/` and the empty URL map to `index.html`. -/
def resolveStaticFilePath (cwd : String) (req : Req) (dirPath : String) : String :=
  if req.url = "/" ∨ req.url = "" then pathJoin [cwd, dirPath, "index.html"]
  else pathJoin [cwd, dirPath, req.url]

/-- The body of the closure built by `#createStaticMiddleware`
(index.js lines 130-141).  Second component: `true` when the closure
calls `next()` (the `ENOENT` case); on success or on the 500 path it
returns without calling `next`. -/
def runStaticMw (fs : FileSys) (cwd : String) (req : Req) (res : Res)
    (dirPath : String) (opts : StaticOpts) : Res × Bool :=
  let filePath := resolveStaticFilePath cwd req dirPath
  match serveStaticFile fs res filePath opts with
  | .ok r => (r, false)
  | .error .enoent => (res, true)
  | .error _ => (sendErrorResponse res 500, false)

/-! ## The application object and its registration API -/

/-- An entry of the `#middleware` array: a user `(req, res, next)`
function or the closure created by `#createStaticMiddleware` (whose
`urlPath` argument is never read inside the closure and is therefore
not captured here). -/
inductive OrdMw where
  | user (f : HFun)
  | staticMw (dirPath : String) (opts : StaticOpts)

structure App where
  routes : List Route := []
  middleware : List (String × OrdMw) := []
  errorMiddleware : List (String × EFun) := []
  staticDir : Option String := none

/-- A function value handed to `use`: `#addMiddleware` classifies by
arity (index.js lines 93-99) — an arity-4 body is error middleware,
anything else (user bodies and the arity-3 static closure) is ordinary
middleware. -/
inductive Handler where
  | ord (f : HFun)
  | errH (g : EFun)
  | staticH (dirPath : String) (opts : StaticOpts)

/-- `#addMiddleware` (index.js lines 93-99). -/
def addMiddleware (app : App) (path : String) (h : Handler) : App :=
  match h with
  | .errH g => { app with errorMiddleware := app.errorMiddleware ++ [(path, g)] }
  | .ord f => { app with middleware := app.middleware ++ [(path, .user f)] }
  | .staticH d o => { app with middleware := app.middleware ++ [(path, .staticMw d o)] }

/-- `use(path, middleware)` (index.js lines 53-59). -/
def App.use (app : App) (path : String) (h : Handler) : App :=
  addMiddleware app path h

/-- The `use(middleware)` overload: the mount path defaults to `/`. -/
def App.useFn (app : App) (h : Handler) : App :=
  app.use "/" h

/-- `route(method, url, ...handlers)` (index.js lines 61-63). -/
def App.route (app : App) (method url : String) (handlers : List HFun) : App :=
  { app with routes := app.routes ++ [⟨method, url, handlers⟩] }

def App.get (app : App) (url : String) (cb : List HFun) : App := app.route "GET" url cb

def App.post (app : App) (url : String) (cb : List HFun) : App := app.route "POST" url cb

def App.put (app : App) (url : String) (cb : List HFun) : App := app.route "PUT" url cb

def App.patch (app : App) (url : String) (cb : List HFun) : App := app.route "PATCH" url cb

def App.del (app : App) (url : String) (cb : List HFun) : App := app.route "DELETE" url cb

def App.head (app : App) (url : String) (cb : List HFun) : App := app.route "HEAD" url cb

def App.opts (app : App) (url : String) (cb : List HFun) : App := app.route "OPTIONS" url cb

def App.trace (app : App) (url : String) (cb : List HFun) : App := app.route "TRACE" url cb

def App.connect (app : App) (url : String) (cb : List HFun) : App := app.route "CONNECT" url cb

/-- `all` (index.js lines 38-51). -/
def App.all (app : App) (url : String) (cb : List HFun) : App :=
  ["GET", "POST", "PUT", "PATCH", "DELETE", "HEAD", "OPTIONS", "TRACE", "CONNECT"].foldl
    (fun a m => a.route m url cb) app

/-- `static(urlPath, dirPath, options)` (index.js lines 23-27): store
the directory for the SPA fallback and mount the static closure at
`/`.  `urlPath` is passed to `#createStaticMiddleware` but never read
there. -/
def App.static (app : App) (urlPath dirPath : String) (opts : StaticOpts) : App :=
  let app' := { app with staticDir := some dirPath }
  app'.use "/" (.staticH dirPath opts)

/-- `listen(port, host, callback)` (index.js lines 65-86).  The port
argument is the result of `Number(port)`: `none` models `NaN`, integral
values are `Int`.  `.error` models the synchronous
`throw new Error("Invalid port number")` raised before
`server.listen` is reached; `.ok (p, h)` models handing `(p, h)` to
`server.listen`. -/
def listen (port : Option Int) (host : Option String) :
    Except String (Int × String) :=
  let h := match host with
    | none => "0.0.0.0"
    | some s => if s = "" then "0.0.0.0" else s
  match port with
  | none => .error "Invalid port number"
  | some p =>
    if p ≤ 0 ∨ p > 65535 then .error "Invalid port number"
    else .ok (p, h)

/-- `#handleUnmatchedRoute` (index.js lines 218-233): with a static
directory configured, try the `index.html` SPA fallback and 404 on any
failure; otherwise 404 immediately. -/
def handleUnmatchedRoute (app : App) (fs : FileSys) (cwd : String) (res : Res) : Res :=
  match app.staticDir with
  | some d =>
    match serveStaticFile fs res (pathJoin [cwd, d, "index.html"]) {} with
    | .ok r => r
    | .error _ => sendNotFoundResponse res
  | none => sendNotFoundResponse res

/-! ## The request pipeline (`#handleRequest` and its helpers)

The continuation-passing pipeline of index.js lines 101-252 is embedded
as a fuel-indexed interpreter.  One call to the interpreter runs a body
to completion inline, the way the source's `await` chains do when every
body awaits its continuation; `fuel` bounds the recursion depth (the
source can genuinely diverge — error middleware may signal errors
forever — so a fuel bound is the honest totalization, with `none`
standing for a run that exceeds it).

Shared mutable state of a request (`res`, the `middlewareIndex` cursor
captured by `next`, `req.params`) lives in `St`; `trace` records which
pipeline stages were invoked, in order. -/

/-- One inbound request as `#handleRequest` sees it, together with the
application snapshot, the filesystem and `process.cwd()`. -/
structure Ctx where
  app : App
  fs : FileSys
  cwd : String
  method : String
  url : String

/-- `#setupRequest` (index.js lines 108-117). -/
def setupRequest (method url : String) : Req :=
  { method := method
    url := url
    pathname := reqPathname url
    query := objFromEntries (parseSearch ((reqSearch url).getD ""))
    params := [] }

/-- Pipeline stages, as recorded in the run trace: invocation of the
ordinary middleware at index `i`, entry into the route dispatcher
(`#processRequest`), invocation of a matched route's handler `i`, and
invocation of the error middleware at index `i` with the error it
received. -/
inductive Ev where
  | mwInvoked (i : Nat)
  | dispatched
  | rhInvoked (i : Nat)
  | ehInvoked (i : Nat) (e : JsErr)
deriving DecidableEq

structure St where
  res : Res
  idx : Nat := 0
  params : List (String × String) := []
  trace : List Ev := []
deriving DecidableEq

/-- A frame's result: normal return; a JavaScript exception propagating
out of it; or a stall — the frame's promise never settles (a middleware
that neither calls its callback nor throws leaves `#handleMiddleware`'s
wrapper promise pending forever), so every frame awaiting it hangs with
the state as it stands. -/
inductive Outcome where
  | ok (st : St)
  | thrown (e : JsErr) (st : St)
  | stalled (st : St)
deriving DecidableEq

def Outcome.state : Outcome → St
  | .ok st => st
  | .thrown _ st => st
  | .stalled st => st

/-- The request object a body receives (the source mutates
`req.params` in place; here the current value is read off the state). -/
def Ctx.req (ctx : Ctx) (st : St) : Req :=
  { setupRequest ctx.method ctx.url with params := st.params }

/-- Which continuation `#executeErrorMiddleware` received as its fourth
argument: the middleware pipeline's own `next` (index.js line 161), or
the no-op `() => {}` (index.js lines 239 and 246). -/
inductive NextKind where
  | pipeline
  | noop
deriving DecidableEq

mutual

/-- The `next` closure of `#executeMiddleware` (index.js lines 158-169):
return immediately once the response ended, route errors into the error
pipeline (passing `next` itself as the continuation), otherwise run the
middleware under the cursor or, with the cursor exhausted, dispatch. -/
def nextFn (ctx : Ctx) : Nat → Option JsErr → St → Option Outcome
  | 0, _, _ => none
  | fuel + 1, errOpt, st =>
    if st.res.ended then some (.ok st)
    else
      match errOpt with
      | some e => execErrMw ctx fuel e .pipeline st
      | none =>
        match ctx.app.middleware[st.idx]? with
        | some (path, mw) => handleMw ctx fuel st.idx path mw { st with idx := st.idx + 1 }
        | none => processRequest ctx fuel st

/-- `#handleMiddleware` (index.js lines 173-189).  A prefix-matched
middleware is invoked; its `next(err)` call never resolves the wrapper
promise, so the frame's own result is the error pipeline's; a throw and
a downstream throw out of `await next()` are both caught and fed to
`next(error)`; a skipped middleware's `await next()` sits outside the
`try`, so a downstream throw propagates to the caller. -/
def handleMw (ctx : Ctx) : Nat → Nat → String → OrdMw → St → Option Outcome
  | 0, _, _, _, _ => none
  | fuel + 1, i, path, mw, st =>
    if jsStartsWith (ctx.req st).pathname path then
      let st1 := { st with trace := st.trace ++ [.mwInvoked i] }
      match mw with
      | .user f =>
        let st2 := { st1 with res := (applyActions (f (ctx.req st1) st1.res).1 st1.res).1 }
        match (applyActions (f (ctx.req st1) st1.res).1 st1.res).2 with
        | some e => afterCatch ctx fuel e st2
        | none =>
          match (f (ctx.req st1) st1.res).2 with
          | .callNext =>
            match nextFn ctx fuel none st2 with
            | none => none
            | some (.ok st3) => some (.ok st3)
            | some (.thrown e st3) => afterCatch ctx fuel e st3
            | some (.stalled st3) => some (.stalled st3)
          | .callNextErr e =>
            -- `cb(err)` runs `next(err)` but never resolves the wrapper
            -- promise: whatever `next(err)` does, this frame then hangs.
            match nextFn ctx fuel (some e) st2 with
            | none => none
            | some o => some (.stalled o.state)
          | .throwE e => afterCatch ctx fuel e st2
          | .finish => some (.stalled st2)
      | .staticMw d o =>
        let st2 := { st1 with res := (runStaticMw ctx.fs ctx.cwd (ctx.req st1) st1.res d o).1 }
        if (runStaticMw ctx.fs ctx.cwd (ctx.req st1) st1.res d o).2 then
          match nextFn ctx fuel none st2 with
          | none => none
          | some (.ok st3) => some (.ok st3)
          | some (.thrown e st3) => afterCatch ctx fuel e st3
          | some (.stalled st3) => some (.stalled st3)
        else some (.stalled st2)
    else
      nextFn ctx fuel none st

/-- The `catch (error) { next(error); }` arm of `#handleMiddleware`:
run `next(error)` (its own promise is dropped, so the frame then
returns normally regardless). -/
def afterCatch (ctx : Ctx) : Nat → JsErr → St → Option Outcome
  | 0, _, _ => none
  | fuel + 1, e, st =>
    match nextFn ctx fuel (some e) st with
    | none => none
    | some o => some (.ok o.state)

/-- `#processRequest` (index.js lines 205-216). -/
def processRequest (ctx : Ctx) : Nat → St → Option Outcome
  | 0, _ => none
  | fuel + 1, st =>
    let st1 := { st with trace := st.trace ++ [.dispatched] }
    match findRoute ctx.app.routes ctx.method ctx.url with
    | .error e => some (.thrown e st1)
    | .ok none =>
      some (.ok { st1 with res := handleUnmatchedRoute ctx.app ctx.fs ctx.cwd st1.res })
    | .ok (some m) =>
      handleMatched ctx fuel m { st1 with params := m.params }

/-- `#handleMatchedRoute` (index.js lines 235-241): run the route's
handler chain, catching anything it throws into the error pipeline with
the no-op continuation. -/
def handleMatched (ctx : Ctx) : Nat → RouteMatch → St → Option Outcome
  | 0, _, _ => none
  | fuel + 1, m, st =>
    match execRH ctx fuel m.handlers 0 st with
    | none => none
    | some (.ok st1) => some (.ok st1)
    | some (.stalled st1) => some (.stalled st1)
    | some (.thrown e st1) => execErrMw ctx fuel e .noop st1

/-- `#executeRouteHandlers` (index.js lines 243-252): the `next`
closure over the handler cursor.  There is no `writableEnded` check
here; a handler error goes to the error pipeline with the no-op
continuation; a throw propagates to `#handleMatchedRoute`. -/
def execRH (ctx : Ctx) : Nat → List HFun → Nat → St → Option Outcome
  | 0, _, _, _ => none
  | fuel + 1, handlers, pos, st =>
    match handlers[pos]? with
    | none => some (.ok st)
    | some h =>
      let st1 := { st with trace := st.trace ++ [.rhInvoked pos] }
      let st2 := { st1 with res := (applyActions (h (ctx.req st1) st1.res).1 st1.res).1 }
      match (applyActions (h (ctx.req st1) st1.res).1 st1.res).2 with
      | some e => some (.thrown e st2)
      | none =>
        match (h (ctx.req st1) st1.res).2 with
        | .throwE e => some (.thrown e st2)
        | .finish => some (.ok st2)
        | .callNext => execRH ctx fuel handlers (pos + 1) st2
        | .callNextErr e =>
          -- `next(error)` returns once the error pipeline is done; the
          -- handler then returns and the whole chain resolves.
          execErrMw ctx fuel e .noop st2

/-- `#executeErrorMiddleware` (index.js lines 191-203). -/
def execErrMw (ctx : Ctx) : Nat → JsErr → NextKind → St → Option Outcome
  | 0, _, _, _ => none
  | fuel + 1, e, k, st => execErrGo ctx fuel ctx.app.errorMiddleware 0 e k st

/-- The `for` loop of `#executeErrorMiddleware`: `rest` is the
remaining part of `#errorMiddleware`, `pos` its position in the full
array.  A handler whose mount path prefixes the raw `req.url` is
invoked; a throw out of it (body throw, or a rejection from the `next`
it may have called) replaces the propagating error and the loop goes
on; after a normal return, iteration stops once the response ended;
with the loop done, a still-open response gets the fixed 500. -/
def execErrGo (ctx : Ctx) :
    Nat → List (String × EFun) → Nat → JsErr → NextKind → St → Option Outcome
  | 0, _, _, _, _, _ => none
  | _ + 1, [], _, _, _, st =>
    if st.res.ended then some (.ok st)
    else some (.ok { st with res := sendErrorResponse st.res 500 })
  | fuel + 1, (path, g) :: rest, pos, e, k, st =>
    if jsStartsWith ctx.url path then
      let st1 := { st with trace := st.trace ++ [.ehInvoked pos e] }
      let st2 := { st1 with res := (applyActions (g e (ctx.req st1) st1.res).1 st1.res).1 }
      match (applyActions (g e (ctx.req st1) st1.res).1 st1.res).2 with
      | some e2 => execErrGo ctx fuel rest (pos + 1) e2 k st2
      | none =>
        match (g e (ctx.req st1) st1.res).2 with
        | .throwE e2 => execErrGo ctx fuel rest (pos + 1) e2 k st2
        | .finish =>
          if st2.res.ended then some (.ok st2)
          else execErrGo ctx fuel rest (pos + 1) e k st2
        | .callNext =>
          match k with
          | .noop =>
            if st2.res.ended then some (.ok st2)
            else execErrGo ctx fuel rest (pos + 1) e k st2
          | .pipeline =>
            match nextFn ctx fuel none st2 with
            | none => none
            | some (.ok st3) =>
              if st3.res.ended then some (.ok st3)
              else execErrGo ctx fuel rest (pos + 1) e k st3
            | some (.thrown e2 st3) => execErrGo ctx fuel rest (pos + 1) e2 k st3
            | some (.stalled st3) => some (.stalled st3)
        | .callNextErr e2 =>
          match k with
          | .noop =>
            if st2.res.ended then some (.ok st2)
            else execErrGo ctx fuel rest (pos + 1) e k st2
          | .pipeline =>
            match nextFn ctx fuel (some e2) st2 with
            | none => none
            | some (.ok st3) =>
              if st3.res.ended then some (.ok st3)
              else execErrGo ctx fuel rest (pos + 1) e k st3
            | some (.thrown e3 st3) => execErrGo ctx fuel rest (pos + 1) e3 k st3
            | some (.stalled st3) => some (.stalled st3)
    else
      execErrGo ctx fuel rest (pos + 1) e k st

end

/-- `#handleRequest` (index.js lines 101-106): set up the request and
response contexts and start the middleware pipeline. -/
def handleRequest (ctx : Ctx) (fuel : Nat) : Option Outcome :=
  nextFn ctx fuel none { res := {} }

/-! ## Specification-side vocabulary used by the theorems -/

/-- First-match lookup in a JavaScript-object-as-list, spelled out so
that statements about parameter maps evaluate structurally. -/
def lookupStr : List (String × String) → String → Option String
  | [], _ => none
  | p :: ps, k => if p.1 = k then some p.2 else lookupStr ps k

/-- The parameter names of a route pattern's segment list. -/
def paramNames (rps : List String) : List String :=
  (rps.filter (fun s => jsStartsWith s ":")).map (fun s => s.drop 1)

/-- An error-middleware body that never invokes its continuation: it
either returns normally or throws (its response operations are
unconstrained). -/
def NoContBody (g : EFun) : Prop :=
  ∀ e req res, (g e req res).2 = .finish ∨ ∃ e', (g e req res).2 = .throwE e'

/-- All registered error middleware of an application leave their
continuation uninvoked. -/
def NoContApp (app : App) : Prop :=
  ∀ p ∈ app.errorMiddleware, NoContBody p.2

/-- Index of the first error-middleware entry (at positions `pos`
onward) whose mount path prefixes the request URL. -/
def firstApplicable (url : String) : List (String × EFun) → Nat → Option Nat
  | [], _ => none
  | (path, _) :: rest, pos =>
    if jsStartsWith url path then some pos
    else firstApplicable url rest (pos + 1)

/-- Is the event an error-middleware invocation? -/
def Ev.isErrInvocation : Ev → Bool
  | .ehInvoked _ _ => true
  | _ => false

/-- The error-middleware indices appearing in a trace fragment. -/
def ehIndices (evs : List Ev) : List Nat :=
  evs.filterMap (fun ev => match ev with | .ehInvoked i _ => some i | _ => none)

/-- An error-middleware body `(err, req, res, next) => { throw e' }`. -/
def constThrowE (e' : JsErr) : EFun :=
  fun _ _ _ => ([], .throwE e')

/-- The invocation schedule the spec prescribes for an all-throwing
error pipeline on error `e`: every applicable handler runs, in order,
each receiving the error thrown by the previous applicable one. -/
def chainEvents (url : String) : List (String × JsErr) → Nat → JsErr → List Ev
  | [], _, _ => []
  | (path, e') :: rest, pos, e =>
    if jsStartsWith url path then .ehInvoked pos e :: chainEvents url rest (pos + 1) e'
    else chainEvents url rest (pos + 1) e

/-! ### Concrete scenario material for counterexamples and witnesses -/

/-- Middleware that signals `next(new Error("boom"))`. -/
def mwSignalBoom : HFun := fun _ _ => ([], .callNextErr (.str "boom"))

/-- Middleware that just calls `next()`. -/
def mwPass : HFun := fun _ _ => ([], .callNext)

/-- Middleware that sends a plain-text body and then calls `next()`. -/
def mwSendThenNext (s : String) : HFun := fun _ _ => ([.send (.txt s)], .callNext)

/-- An error handler that invokes its continuation with no argument. -/
def ehCallsNext : EFun := fun _ _ _ => ([], .callNext)

/-- An error handler that sends a plain-text body and returns. -/
def ehSends (s : String) : EFun := fun _ _ _ => ([.send (.txt s)], .finish)

/-- Scenario: an erroring middleware followed by an ordinary one, with a
single error handler that calls `next()`. -/
def appReenter : App :=
  ((App.useFn { } (.ord mwSignalBoom)).useFn (.ord mwPass)).useFn (.errH ehCallsNext)

def ctxReenter : Ctx :=
  { app := appReenter, fs := { }, cwd := "/srv", method := "GET", url := "/" }

/-- Scenario: one ordinary middleware and one continuation-calling error
handler, driven directly through the error pipeline. -/
def appErrPipe : App :=
  (App.useFn { } (.ord mwPass)).useFn (.errH ehCallsNext)

def ctxErrPipe : Ctx :=
  { app := appErrPipe, fs := { }, cwd := "/srv", method := "GET", url := "/" }

/-- Scenario: static serving configured but the fallback document
missing from the filesystem. -/
def appStaticOnly : App := App.static { } "/public" "public" { }

def ctxStaticMissing : Ctx :=
  { app := appStaticOnly, fs := { }, cwd := "/srv", method := "GET", url := "/nope" }

/-- Scenario: static serving configured with the fallback document
present. -/
def fsWithIndex : FileSys :=
  { entries := [("/srv/public/index.html", .file "<html>spa</html>")] }

def ctxStaticPresent : Ctx :=
  { app := appStaticOnly, fs := fsWithIndex, cwd := "/srv", method := "GET", url := "/nope" }

/-- Two same-shape routes: `GET /a/:id` registered before `GET /a/:x`. -/
def routeAid : Route := { method := "GET", url := "/a/:id" }

def routeAx : Route := { method := "GET", url := "/a/:x" }

/-- Scenario: an erroring middleware and an error handler that sends a
body and returns without touching its continuation. -/
def appNoCont : App :=
  (App.useFn { } (.ord mwSignalBoom)).useFn (.errH (ehSends "handled"))

def ctxNoCont : Ctx :=
  { app := appNoCont, fs := { }, cwd := "/srv", method := "GET", url := "/" }

/-- The state `next(err)` reaches in `ctxNoCont`: the handler was
invoked once and finalized the response. -/
def stNoCont : St :=
  { res := { ended := true, headersSent := true, statusCode := 200,
             headers := [("Content-Type", "text/plain")], body := "handled" },
    idx := 0, params := [], trace := [.ehInvoked 0 (.str "boom")] }

/-- Scenario: two error handlers that both throw fresh errors. -/
def esThrow : List (String × JsErr) := [("/", .str "e1"), ("/", .str "e2")]

def appThrow : App :=
  (App.useFn { } (.errH (constThrowE (.str "e1")))).useFn (.errH (constThrowE (.str "e2")))

def ctxThrow : Ctx :=
  { app := appThrow, fs := { }, cwd := "/srv", method := "GET", url := "/" }

/-- Scenario: two middleware entries that each send a body and then
call `next()`. -/
def appSendNext : App :=
  (App.useFn { } (.ord (mwSendThenNext "first"))).useFn (.ord (mwSendThenNext "second"))

def ctxSendNext : Ctx :=
  { app := appSendNext, fs := { }, cwd := "/srv", method := "GET", url := "/" }

/-- An empty application, and a state whose response is already
finalized. -/
def ctxPlain : Ctx := { app := { }, fs := { }, cwd := "/srv", method := "GET", url := "/" }

def stEnded : St :=
  { res := { ended := true, headersSent := true, statusCode := 200,
             headers := [], body := "done" } }

/-- The state the no-op error pass reaches in `ctxErrPipe`: the handler
ran once, then the exhausted pipeline emitted the fixed 500. -/
def stNoopPass : St :=
  { res := { ended := true, headersSent := true, statusCode := 500,
             headers := [("Content-Type", "text/plain")], body := "Internal Server Error" },
    idx := 0, params := [], trace := [.ehInvoked 0 (.str "e0")] }

/-! ## Lemmas about the parameter map -/

theorem lookupStr_overwrite (k v : String) :
    ∀ ps : List (String × String), ps.any (fun p => p.1 = k) = true →
      lookupStr (ps.map (fun p => if p.1 = k then (k, v) else p)) k = some v := by
  intro ps
  induction ps with
  | nil => intro h; simp at h
  | cons p ps ih =>
    intro h
    rw [List.map_cons]
    by_cases hp : p.1 = k
    · rw [if_pos hp]
      simp [lookupStr]
    · rw [if_neg hp]
      simp only [lookupStr, if_neg hp]
      apply ih
      simpa [hp] using h

theorem lookupStr_overwrite_ne (k v n : String) (hne : n ≠ k) :
    ∀ ps : List (String × String),
      lookupStr (ps.map (fun p => if p.1 = k then (k, v) else p)) n = lookupStr ps n := by
  intro ps
  induction ps with
  | nil => rfl
  | cons p ps ih =>
    rw [List.map_cons]
    by_cases hp : p.1 = k
    · rw [if_pos hp]
      have h1 : ¬ ((k, v).1 = n) := fun hkn => hne (hkn.symm)
      have h2 : ¬ (p.1 = n) := by rw [hp]; exact fun hkn => hne (hkn.symm)
      simp only [lookupStr, if_neg h1, if_neg h2, ih]
    · rw [if_neg hp]
      by_cases hn : p.1 = n
      · simp only [lookupStr, if_pos hn]
      · simp only [lookupStr, if_neg hn, ih]

theorem lookupStr_append_single_ne (k v n : String) (hne : n ≠ k) :
    ∀ ps : List (String × String), lookupStr (ps ++ [(k, v)]) n = lookupStr ps n := by
  intro ps
  induction ps with
  | nil =>
    have h1 : ¬ ((k, v).1 = n) := fun hkn => hne (hkn.symm)
    simp only [List.nil_append, lookupStr, if_neg h1]
  | cons p ps ih =>
    by_cases hn : p.1 = n
    · simp only [List.cons_append, lookupStr, if_pos hn]
    · rw [List.cons_append]
      simp only [lookupStr, if_neg hn]
      exact ih

theorem lookupStr_append_single_absent (k v : String) :
    ∀ ps : List (String × String), ps.any (fun p => p.1 = k) = false →
      lookupStr (ps ++ [(k, v)]) k = some v := by
  intro ps
  induction ps with
  | nil => simp [lookupStr]
  | cons p ps ih =>
    intro h
    simp only [List.any_cons, Bool.or_eq_false_iff, decide_eq_false_iff_not] at h
    rw [List.cons_append]
    simp only [lookupStr, if_neg h.1]
    exact ih h.2

theorem lookupStr_objInsert_self (ps : List (String × String)) (k v : String) :
    lookupStr (objInsert ps k v) k = some v := by
  unfold objInsert
  by_cases h : ps.any (fun p => p.1 = k)
  · rw [if_pos h]
    exact lookupStr_overwrite k v ps h
  · rw [if_neg h]
    exact lookupStr_append_single_absent k v ps (Bool.eq_false_iff.mpr h)

theorem lookupStr_objInsert_ne (ps : List (String × String)) (k v n : String)
    (hne : n ≠ k) : lookupStr (objInsert ps k v) n = lookupStr ps n := by
  unfold objInsert
  by_cases h : ps.any (fun p => p.1 = k)
  · rw [if_pos h]
    exact lookupStr_overwrite_ne k v n hne ps
  · rw [if_neg h]
    exact lookupStr_append_single_ne k v n hne ps

theorem paramNames_cons (rp : String) (rps : List String) :
    paramNames (rp :: rps) =
      if jsStartsWith rp ":" then rp.drop 1 :: paramNames rps else paramNames rps := by
  by_cases h : jsStartsWith rp ":" <;> simp [paramNames, List.filter, h]

/-! ## Lemmas about the segment loop of `findRoute` -/

theorem matchSegs_frame :
    ∀ (rps ups : List String) (acc ps : List (String × String)),
      matchSegs rps ups acc = .ok (some ps) →
      ∀ n, n ∉ paramNames rps → lookupStr ps n = lookupStr acc n := by
  intro rps
  induction rps with
  | nil =>
    intro ups acc ps h n _
    cases ups with
    | nil =>
      simp only [matchSegs, Except.ok.injEq, Option.some.injEq] at h
      rw [h]
    | cons u us => simp [matchSegs] at h
  | cons rp rps ih =>
    intro ups acc ps h n hn
    cases ups with
    | nil => simp [matchSegs] at h
    | cons u us =>
      rw [paramNames_cons] at hn
      by_cases hp : jsStartsWith rp ":"
      · rw [if_pos hp] at hn
        simp only [matchSegs, hp, if_true] at h
        cases hd : decodeURIComponent u with
        | none => rw [hd] at h; exact Except.noConfusion h
        | some v =>
          rw [hd] at h
          have hnn : n ≠ rp.drop 1 := fun hEq => hn (hEq ▸ List.mem_cons_self _ _)
          have htail : n ∉ paramNames rps := fun hm => hn (List.mem_cons_of_mem _ hm)
          rw [ih us _ ps h n htail, lookupStr_objInsert_ne _ _ _ _ hnn]
      · rw [if_neg hp] at hn
        simp only [matchSegs, hp, if_false] at h
        by_cases he : rp = u
        · rw [if_pos he] at h
          exact ih us acc ps h n hn
        · rw [if_neg he] at h
          exact absurd h (by simp)

theorem matchSegs_binding :
    ∀ (rps ups : List String) (acc ps : List (String × String)),
      matchSegs rps ups acc = .ok (some ps) →
      (paramNames rps).Nodup →
      ∀ pr ∈ rps.zip ups, jsStartsWith pr.1 ":" →
        lookupStr ps (pr.1.drop 1) = decodeURIComponent pr.2 := by
  intro rps
  induction rps with
  | nil => intro ups acc ps _ _ pr hpr; simp at hpr
  | cons rp rps ih =>
    intro ups acc ps h hnd pr hpr hps
    cases ups with
    | nil => simp at hpr
    | cons u us =>
      rw [List.zip_cons_cons, List.mem_cons] at hpr
      by_cases hp : jsStartsWith rp ":"
      · rw [paramNames_cons, if_pos hp, List.nodup_cons] at hnd
        simp only [matchSegs, hp, if_true] at h
        cases hd : decodeURIComponent u with
        | none => rw [hd] at h; exact Except.noConfusion h
        | some v =>
          rw [hd] at h
          rcases hpr with hpr | hpr
          · rw [hpr]
            rw [matchSegs_frame rps us _ ps h (rp.drop 1) hnd.1,
              lookupStr_objInsert_self, hd]
          · exact ih us _ ps h hnd.2 pr hpr hps
      · rw [paramNames_cons, if_neg hp] at hnd
        simp only [matchSegs, hp, if_false] at h
        by_cases he : rp = u
        · rw [if_pos he] at h
          rcases hpr with hpr | hpr
          · rw [hpr] at hps; exact absurd hps (by simpa using hp)
          · exact ih us acc ps h hnd pr hpr hps
        · rw [if_neg he] at h
          exact absurd h (by simp)

theorem matchSegs_some_iff :
    ∀ (rps ups : List String) (acc : List (String × String)),
      rps.length = ups.length →
      ((∃ ps, matchSegs rps ups acc = .ok (some ps)) ↔
        ∀ pr ∈ rps.zip ups,
          (¬ jsStartsWith pr.1 ":" = true → pr.1 = pr.2) ∧
          (jsStartsWith pr.1 ":" = true → (decodeURIComponent pr.2).isSome = true)) := by
  intro rps
  induction rps with
  | nil =>
    intro ups acc hlen
    cases ups with
    | nil => simp [matchSegs]
    | cons u us => simp at hlen
  | cons rp rps ih =>
    intro ups acc hlen
    cases ups with
    | nil => simp at hlen
    | cons u us =>
      simp only [List.length_cons, Nat.add_right_cancel_iff] at hlen
      rw [List.zip_cons_cons]
      constructor
      · rintro ⟨ps, h⟩ pr hpr
        rw [List.mem_cons] at hpr
        by_cases hp : jsStartsWith rp ":"
        · simp only [matchSegs, hp, if_true] at h
          cases hd : decodeURIComponent u with
          | none => rw [hd] at h; exact Except.noConfusion h
          | some v =>
            rw [hd] at h
            rcases hpr with hpr | hpr
            · rw [hpr]
              exact ⟨fun hc => absurd hp hc, fun _ => by rw [hd]; rfl⟩
            · exact (ih us _ hlen).mp ⟨ps, h⟩ pr hpr
        · simp only [matchSegs, hp, if_false] at h
          by_cases he : rp = u
          · rw [if_pos he] at h
            rcases hpr with hpr | hpr
            · rw [hpr]
              exact ⟨fun _ => he, fun hc => absurd hc (by simpa using hp)⟩
            · exact (ih us acc hlen).mp ⟨ps, h⟩ pr hpr
          · rw [if_neg he] at h
            simp at h
      · intro hall
        by_cases hp : jsStartsWith rp ":"
        · have hdec := (hall (rp, u) (List.mem_cons_self _ _)).2 hp
          cases hd : decodeURIComponent u with
          | none => rw [hd] at hdec; simp at hdec
          | some v =>
            have := (ih us (objInsert acc (rp.drop 1) v) hlen).mpr
              (fun pr hpr => hall pr (List.mem_cons_of_mem _ hpr))
            rcases this with ⟨ps, hps⟩
            exact ⟨ps, by simp only [matchSegs, hp, if_true, hd]; exact hps⟩
        · have he := (hall (rp, u) (List.mem_cons_self _ _)).1 (by simpa using hp)
          have := (ih us acc hlen).mpr
            (fun pr hpr => hall pr (List.mem_cons_of_mem _ hpr))
          rcases this with ⟨ps, hps⟩
          exact ⟨ps, by simp only [matchSegs, hp, if_false, if_pos he]; exact hps⟩

theorem matchSegs_ne_error :
    ∀ (rps ups : List String) (acc : List (String × String)),
      (∀ pr ∈ rps.zip ups,
        jsStartsWith pr.1 ":" = true → (decodeURIComponent pr.2).isSome = true) →
      ∀ e, matchSegs rps ups acc ≠ .error e := by
  intro rps
  induction rps with
  | nil =>
    intro ups acc _ e
    cases ups with
    | nil => simp [matchSegs]
    | cons u us => simp [matchSegs]
  | cons rp rps ih =>
    intro ups acc hall e
    cases ups with
    | nil => simp [matchSegs]
    | cons u us =>
      rw [List.zip_cons_cons] at hall
      by_cases hp : jsStartsWith rp ":"
      · have hdec := hall (rp, u) (List.mem_cons_self _ _) hp
        cases hd : decodeURIComponent u with
        | none => rw [hd] at hdec; simp at hdec
        | some v =>
          simp only [matchSegs, hp, if_true, hd]
          exact ih us _ (fun pr hpr => hall pr (List.mem_cons_of_mem _ hpr)) e
      · simp only [matchSegs, hp, if_false]
        by_cases he : rp = u
        · rw [if_pos he]
          exact ih us acc (fun pr hpr => hall pr (List.mem_cons_of_mem _ hpr)) e
        · rw [if_neg he]
          simp

/-! ## C1 — contract of the per-route path matcher -/

/-- C1 (corrected).  Per route entry, `findRoute`'s matcher returns a
match with a parameter map exactly when the segment counts agree, every
literal pattern segment equals its positional counterpart, **and every
parameter-bound request segment percent-decodes successfully** (a
malformed escape there makes `decodeURIComponent` throw instead); on a
match, each `:name` segment binds the percent-decoded request segment
under `name` (stated for patterns without duplicate parameter names,
where "binds" is well defined). -/
theorem matchRoute_contract (pattern path : String) :
    ((∃ ps, matchRoute pattern path = .ok (some ps)) ↔
      ((segs pattern).length = (segs path).length ∧
        ∀ pr ∈ (segs pattern).zip (segs path),
          (¬ jsStartsWith pr.1 ":" = true → pr.1 = pr.2) ∧
          (jsStartsWith pr.1 ":" = true → (decodeURIComponent pr.2).isSome = true)))
    ∧
    (∀ ps, matchRoute pattern path = .ok (some ps) →
      (paramNames (segs pattern)).Nodup →
      ∀ pr ∈ (segs pattern).zip (segs path), jsStartsWith pr.1 ":" = true →
        lookupStr ps (pr.1.drop 1) = decodeURIComponent pr.2) := by
  by_cases hlen : (segs pattern).length = (segs path).length
  · constructor
    · constructor
      · rintro ⟨ps, h⟩
        rw [matchRoute, if_pos hlen] at h
        exact ⟨hlen, (matchSegs_some_iff _ _ [] hlen).mp ⟨ps, h⟩⟩
      · rintro ⟨_, hcond⟩
        rcases (matchSegs_some_iff _ _ [] hlen).mpr hcond with ⟨ps, h⟩
        exact ⟨ps, by rw [matchRoute, if_pos hlen]; exact h⟩
    · intro ps h hnd pr hpr hps
      rw [matchRoute, if_pos hlen] at h
      exact matchSegs_binding _ _ [] ps h hnd pr hpr hps
  · constructor
    · constructor
      · rintro ⟨ps, h⟩
        rw [matchRoute, if_neg hlen] at h
        simp at h
      · rintro ⟨hl, _⟩
        exact absurd hl hlen
    · intro ps h
      rw [matchRoute, if_neg hlen] at h
      simp at h

/-- C1, counterexample to the claim as stated: for pattern `:a` and
path `%` the segment counts agree and the (vacuous) literal condition
holds, yet the matcher returns no match result at all — it throws a
`URIError` out of `decodeURIComponent`. -/
theorem matchRoute_iff_counterexample :
    ((segs ":a").length = (segs "%").length ∧
      ∀ pr ∈ (segs ":a").zip (segs "%"), ¬ jsStartsWith pr.1 ":" = true → pr.1 = pr.2) ∧
    ¬ ∃ ps, matchRoute ":a" "%" = .ok (some ps) := by
  refine ⟨by decide, ?_⟩
  rintro ⟨ps, h⟩
  rw [show matchRoute ":a" "%" = .error JsErr.uriMalformed from rfl] at h
  exact Except.noConfusion h

/-- C1, witness: `/u/:id` matched against `/u/a%20b` succeeds and binds
`id` to the percent-decoded segment `a b`. -/
theorem matchRoute_contract_witness :
    (∃ ps, matchRoute "/u/:id" "/u/a%20b" = .ok (some ps)) ∧
    lookupStr [("id", "a b")] (String.drop ":id" 1) = decodeURIComponent "a%20b" := by
  have h := matchRoute_contract "/u/:id" "/u/a%20b"
  exact ⟨h.1.mpr ⟨by decide, by decide⟩,
    h.2 [("id", "a b")] (by rfl) (by decide) (":id", "a%20b") (by decide) (by decide)⟩

/-! ## C7 — totality of the matcher -/

/-- C7 (corrected).  The matcher never raises on shape mismatches: a
segment-count mismatch always yields no-match, and whenever every
parameter-bound request segment percent-decodes, no error is raised at
all.  (Totality over *arbitrary* request segments fails: a malformed
escape in a parameter-bound segment throws, see the counterexample.) -/
theorem matchRoute_no_raise (pattern path : String) :
    ((segs pattern).length ≠ (segs path).length → matchRoute pattern path = .ok none)
    ∧
    ((∀ pr ∈ (segs pattern).zip (segs path),
        jsStartsWith pr.1 ":" = true → (decodeURIComponent pr.2).isSome = true) →
      ∀ e, matchRoute pattern path ≠ .error e) := by
  constructor
  · intro hlen
    rw [matchRoute, if_neg hlen]
  · intro hdec e
    by_cases hlen : (segs pattern).length = (segs path).length
    · rw [matchRoute, if_pos hlen]
      exact matchSegs_ne_error _ _ [] hdec e
    · rw [matchRoute, if_neg hlen]
      simp

/-- C7, counterexample to totality as claimed: a parameter segment
paired with the malformed percent-encoded request segment `%` raises a
`URIError` — the matcher returns neither a match nor no-match. -/
theorem matchRoute_totality_counterexample :
    matchRoute ":a" "%" = .error JsErr.uriMalformed ∧
    ∀ o, matchRoute ":a" "%" ≠ .ok o := by
  refine ⟨rfl, ?_⟩
  intro o h
  rw [show matchRoute ":a" "%" = .error JsErr.uriMalformed from rfl] at h
  exact Except.noConfusion h

/-- C7, witness: a count mismatch returns no-match, and a well-formed
parameter segment raises nothing. -/
theorem matchRoute_no_raise_witness :
    matchRoute "/a/b" "/a" = .ok none ∧
    ∀ e, matchRoute "/x/:p" "/x/hi" ≠ .error e :=
  ⟨(matchRoute_no_raise "/a/b" "/a").1 (by decide),
    (matchRoute_no_raise "/x/:p" "/x/hi").2 (by decide)⟩

/-! ## C2 — first registered match wins -/

/-- C2 (confirmed).  `findRoute` scans the route table in registration
order and returns the result of the first entry whose method matches
and whose pattern structurally matches the request path — whatever
routes follow it.  In particular, with `GET /a/:id` registered before
`GET /a/:x`, a matching request binds the first registration's
parameter name (see the witness). -/
theorem findRoute_first_registered_match
    (pre : List Route) (r : Route) (post : List Route)
    (method url : String) (ps : List (String × String))
    (hpre : ∀ r' ∈ pre, r'.method = method →
      matchRoute r'.url (reqPathname url) = .ok none)
    (hm : r.method = method)
    (hr : matchRoute r.url (reqPathname url) = .ok (some ps)) :
    findRoute (pre ++ r :: post) method url =
      .ok (some ⟨r.method, r.url, r.handlers, ps, reqQuery url, reqHashField url⟩) := by
  unfold findRoute
  induction pre with
  | nil =>
    rw [List.nil_append, findRouteGo, if_pos hm, hr]
  | cons r0 pre ih =>
    rw [List.cons_append, findRouteGo]
    by_cases h0 : r0.method = method
    · rw [if_pos h0, hpre r0 (List.mem_cons_self _ _) h0]
      exact ih (fun r' hr' => hpre r' (List.mem_cons_of_mem _ hr'))
    · rw [if_neg h0]
      exact ih (fun r' hr' => hpre r' (List.mem_cons_of_mem _ hr'))

/-- C2, witness: `GET /a/:id` before `GET /a/:x`, dispatched at
`/a/7` — the parameter map's key is `id`. -/
theorem findRoute_first_registered_match_witness :
    findRoute [routeAid, routeAx] "GET" "/a/7" =
      .ok (some ⟨"GET", "/a/:id", [], [("id", "7")], [], none⟩) := by
  have h := findRoute_first_registered_match [] routeAid [routeAx] "GET" "/a/7"
    [("id", "7")] (by intro r' hr'; simp at hr') rfl (by rfl)
  simpa using h

/-! ## C9 — `listen` port validation -/

/-- C9 (confirmed).  `listen` accepts exactly the ports in
`[1, 65535]`; a `NaN` port or one outside the range fails synchronously
with the descriptive error, producing no bind action; an omitted host
defaults to the bind-all address. -/
theorem listen_validates_port (port : Int) (host : Option String) :
    ((∃ r, listen (some port) host = .ok r) ↔ (1 ≤ port ∧ port ≤ 65535))
    ∧ (listen none host = .error "Invalid port number")
    ∧ ((port ≤ 0 ∨ port > 65535) →
        listen (some port) host = .error "Invalid port number")
    ∧ ((1 ≤ port ∧ port ≤ 65535) →
        listen (some port) none = .ok (port, "0.0.0.0")) := by
  refine ⟨?_, rfl, ?_, ?_⟩
  · constructor
    · rintro ⟨r, h⟩
      simp only [listen] at h
      by_cases hb : port ≤ 0 ∨ port > 65535
      · rw [if_pos hb] at h; exact Except.noConfusion h
      · omega
    · intro hb
      refine ⟨(port, match host with
        | none => "0.0.0.0"
        | some s => if s = "" then "0.0.0.0" else s), ?_⟩
      simp only [listen, if_neg (show ¬ (port ≤ 0 ∨ port > 65535) by omega)]
  · intro hb
    simp only [listen, if_pos hb]
  · intro hb
    simp only [listen, if_neg (show ¬ (port ≤ 0 ∨ port > 65535) by omega)]

/-- C9, witness: `listen(0)` and `listen(70000)` fail before any bind;
`listen(8080)` binds `0.0.0.0:8080`. -/
theorem listen_validates_port_witness :
    listen (some 0) none = .error "Invalid port number" ∧
    listen (some 70000) none = .error "Invalid port number" ∧
    listen (some 8080) none = .ok (8080, "0.0.0.0") :=
  ⟨(listen_validates_port 0 none).2.2.1 (Or.inl (by norm_num)),
    (listen_validates_port 70000 none).2.2.1 (Or.inr (by norm_num)),
    (listen_validates_port 8080 none).2.2.2 ⟨by norm_num, by norm_num⟩⟩

/-! ## C10 — `static` ignores its mount argument -/

/-- C10 (confirmed).  `static(urlPath, dirPath, options)` does not
depend on `urlPath`: the middleware is mounted at `/` and the stored
static directory is `dirPath`; the served file path joins the directory
with the raw request URL (query string included), except that `/` and
the empty URL resolve to the directory's `index.html`. -/
theorem static_ignores_urlPath :
    (∀ app u1 u2 d o, App.static app u1 d o = App.static app u2 d o)
    ∧ (∀ app u d o,
        (App.static app u d o).middleware = app.middleware ++ [("/", .staticMw d o)] ∧
        (App.static app u d o).staticDir = some d ∧
        (App.static app u d o).routes = app.routes ∧
        (App.static app u d o).errorMiddleware = app.errorMiddleware)
    ∧ (∀ cwd req d, (req.url = "/" ∨ req.url = "") →
        resolveStaticFilePath cwd req d = pathJoin [cwd, d, "index.html"])
    ∧ (∀ cwd req d, ¬ (req.url = "/" ∨ req.url = "") →
        resolveStaticFilePath cwd req d = pathJoin [cwd, d, req.url]) := by
  refine ⟨fun app u1 u2 d o => rfl,
    fun app u d o => ⟨rfl, rfl, rfl, rfl⟩, ?_, ?_⟩
  · intro cwd req d h
    rw [resolveStaticFilePath, if_pos h]
  · intro cwd req d h
    rw [resolveStaticFilePath, if_neg h]

/-- C10, witness: two different `urlPath` arguments give the same
application; a non-root URL maps to the directory joined with the raw
URL, the root URL to `index.html`. -/
theorem static_ignores_urlPath_witness :
    App.static { } "/assets" "public" { } = App.static { } "/other" "public" { } ∧
    resolveStaticFilePath "/srv" (setupRequest "GET" "/img/x.png?v=1") "public" =
      pathJoin ["/srv", "public", "/img/x.png?v=1"] ∧
    resolveStaticFilePath "/srv" (setupRequest "GET" "/") "public" =
      pathJoin ["/srv", "public", "index.html"] :=
  ⟨static_ignores_urlPath.1 { } "/assets" "/other" "public" { },
    static_ignores_urlPath.2.2.2 "/srv" (setupRequest "GET" "/img/x.png?v=1") "public"
      (by decide),
    static_ignores_urlPath.2.2.1 "/srv" (setupRequest "GET" "/") "public"
      (by decide)⟩

/-! ## C8 — unmatched routes: SPA fallback or 404 -/

/-- C8 (corrected).  For an unmatched request: without a static
directory the response is a 404 whose body is the standard reason
phrase `Not Found`; with a static directory configured the response is
the fallback `index.html` document **when that file exists** — if it is
missing the code falls back to the same 404 (see the
counterexample). -/
theorem unmatched_route_fallback (app : App) (fs : FileSys) (cwd : String) (res : Res)
    (ho : res.ended = false) (hh : res.headersSent = false) :
    (app.staticDir = none →
      (handleUnmatchedRoute app fs cwd res).statusCode = 404 ∧
      (handleUnmatchedRoute app fs cwd res).body = "Not Found" ∧
      (handleUnmatchedRoute app fs cwd res).ended = true)
    ∧
    (∀ d c, app.staticDir = some d →
      fs.statE (pathJoin [cwd, d, "index.html"]) = some (.file c) →
      (handleUnmatchedRoute app fs cwd res).body = c ∧
      (handleUnmatchedRoute app fs cwd res).ended = true ∧
      (handleUnmatchedRoute app fs cwd res).statusCode = res.statusCode)
    ∧
    (∀ d, app.staticDir = some d →
      fs.statE (pathJoin [cwd, d, "index.html"]) = none →
      (handleUnmatchedRoute app fs cwd res).statusCode = 404 ∧
      (handleUnmatchedRoute app fs cwd res).body = "Not Found") := by
  refine ⟨?_, ?_, ?_⟩
  · intro hnone
    rw [handleUnmatchedRoute, hnone]
    simp [sendNotFoundResponse, sendErrorResponse, hh, Res.endWith, ho, statusCodes]
  · intro d c hsome hstat
    simp only [handleUnmatchedRoute, hsome, serveStaticFile, hstat, sendFile,
      Option.getD_none, Res.setHeaderE, hh]
    simp [Res.endWith, ho]
  · intro d hsome hstat
    simp only [handleUnmatchedRoute, hsome, serveStaticFile, hstat]
    simp [sendNotFoundResponse, sendErrorResponse, hh, Res.endWith, ho, statusCodes]

/-- C8, counterexample to the claim as stated: static serving is
configured (`staticDir = "public"`) but the fallback document does not
exist; the full pipeline answers the unmatched request `/nope` with a
404, not with the fallback index document. -/
theorem unmatched_route_counterexample :
    (handleRequest ctxStaticMissing 20).map
        (fun o => (o.state.res.statusCode, o.state.res.body, o.state.res.ended)) =
      some (404, "Not Found", true) := rfl

/-- C8, witness: with the document present the unmatched request gets
its bytes; without static configuration it gets the 404 reason
phrase. -/
theorem unmatched_route_fallback_witness :
    (handleUnmatchedRoute appStaticOnly fsWithIndex "/srv" { }).body = "<html>spa</html>" ∧
    (handleUnmatchedRoute { } { } "/srv" { }).statusCode = 404 ∧
    (handleUnmatchedRoute { } { } "/srv" { }).body = "Not Found" := by
  have h1 := (unmatched_route_fallback appStaticOnly fsWithIndex "/srv" { } rfl rfl).2.1
    "public" "<html>spa</html>" rfl (by rfl)
  have h2 := (unmatched_route_fallback { } { } "/srv" { } rfl rfl).1 rfl
  exact ⟨h1.1, h2.1, h2.2.1⟩


/-! ## The error pipeline as a forward pass -/

/-- Every run of the `#executeErrorMiddleware` loop that cannot re-enter
the middleware pipeline — because its continuation is the no-op, or
because no handler in the list invokes its continuation — returns
normally, appends only error-handler invocation events, visits strictly
increasing handler indices at or beyond the start position, and reaches
the first handler whose mount path prefixes the request URL with the
propagating error. -/
theorem execErrGo_forward_pass :
    ∀ (ehs : List (String × EFun)) (fuel : Nat) (ctx : Ctx) (pos : Nat)
      (e : JsErr) (k : NextKind) (st : St) (out : Outcome),
      (k = .noop ∨ ∀ p ∈ ehs, NoContBody p.2) →
      execErrGo ctx fuel ehs pos e k st = some out →
      ∃ st' evs, out = .ok st' ∧ st'.trace = st.trace ++ evs ∧
        (∀ ev ∈ evs, ev.isErrInvocation = true) ∧
        List.Pairwise (· < ·) (ehIndices evs) ∧
        (∀ i ∈ ehIndices evs, pos ≤ i) ∧
        (∀ j, firstApplicable ctx.url ehs pos = some j → Ev.ehInvoked j e ∈ evs) ∧
        (firstApplicable ctx.url ehs pos = none → evs = []) := by
  intro ehs
  induction ehs with
  | nil =>
    intro fuel ctx pos e k st out _ h
    cases fuel with
    | zero => simp [execErrGo] at h
    | succ f =>
      simp only [execErrGo] at h
      by_cases ho : st.res.ended = true
      · rw [if_pos ho] at h
        injection h with h2
        subst h2
        exact ⟨st, [], rfl, by simp, by simp, by simp [ehIndices], by simp [ehIndices],
          by intro j hj; simp [firstApplicable] at hj, fun _ => rfl⟩
      · rw [if_neg ho] at h
        injection h with h2
        subst h2
        exact ⟨_, [], rfl, by simp, by simp, by simp [ehIndices], by simp [ehIndices],
          by intro j hj; simp [firstApplicable] at hj, fun _ => rfl⟩
  | cons ph rest ih =>
    intro fuel ctx pos e k st out hyp h
    obtain ⟨path, g⟩ := ph
    have hypR : (k = .noop ∨ ∀ p ∈ rest, NoContBody p.2) :=
      hyp.imp id (fun hall p hp => hall p (List.mem_cons_of_mem _ hp))
    cases fuel with
    | zero => simp [execErrGo] at h
    | succ f =>
      simp only [execErrGo] at h
      by_cases happ : jsStartsWith ctx.url path = true
      · rw [if_pos happ] at h
        have step : ∀ (e2 : JsErr) (st2 : St),
            st2.trace = st.trace ++ [Ev.ehInvoked pos e] →
            execErrGo ctx f rest (pos + 1) e2 k st2 = some out →
            ∃ st' evs, out = .ok st' ∧ st'.trace = st.trace ++ evs ∧
              (∀ ev ∈ evs, ev.isErrInvocation = true) ∧
              List.Pairwise (· < ·) (ehIndices evs) ∧
              (∀ i ∈ ehIndices evs, pos ≤ i) ∧
              (∀ j, firstApplicable ctx.url ((path, g) :: rest) pos = some j →
                Ev.ehInvoked j e ∈ evs) ∧
              (firstApplicable ctx.url ((path, g) :: rest) pos = none → evs = []) := by
          intro e2 st2 hst2 hrec
          obtain ⟨st', evs, hout, htrace, herr, hpair, hge, _, _⟩ :=
            ih f ctx (pos + 1) e2 k st2 out hypR hrec
          refine ⟨st', Ev.ehInvoked pos e :: evs, hout, ?_, ?_, ?_, ?_, ?_, ?_⟩
          · rw [htrace, hst2, List.append_assoc]
            rfl
          · intro ev hev
            rcases List.mem_cons.mp hev with rfl | hev
            · rfl
            · exact herr ev hev
          · rw [show ehIndices (Ev.ehInvoked pos e :: evs) = pos :: ehIndices evs from rfl]
            exact List.Pairwise.cons
              (fun i hi => Nat.lt_of_lt_of_le (Nat.lt_succ_self pos) (hge i hi)) hpair
          · intro i hi
            rcases List.mem_cons.mp hi with rfl | hi
            · exact Nat.le_refl _
            · exact Nat.le_of_succ_le (hge i hi)
          · intro j hj
            rw [firstApplicable, if_pos happ] at hj
            injection hj with hj
            subst hj
            exact List.mem_cons_self _ _
          · intro hj
            rw [firstApplicable, if_pos happ] at hj
            exact Option.noConfusion hj
        have stop : ∀ (st2 : St),
            st2.trace = st.trace ++ [Ev.ehInvoked pos e] →
            some (Outcome.ok st2) = some out →
            ∃ st' evs, out = .ok st' ∧ st'.trace = st.trace ++ evs ∧
              (∀ ev ∈ evs, ev.isErrInvocation = true) ∧
              List.Pairwise (· < ·) (ehIndices evs) ∧
              (∀ i ∈ ehIndices evs, pos ≤ i) ∧
              (∀ j, firstApplicable ctx.url ((path, g) :: rest) pos = some j →
                Ev.ehInvoked j e ∈ evs) ∧
              (firstApplicable ctx.url ((path, g) :: rest) pos = none → evs = []) := by
          intro st2 hst2 hout
          injection hout with hout
          refine ⟨st2, [Ev.ehInvoked pos e], hout.symm, by rw [hst2], ?_, ?_, ?_, ?_, ?_⟩
          · intro ev hev
            rcases List.mem_singleton.mp hev with rfl
            rfl
          · exact List.Pairwise.cons (by intro b hb; simp [ehIndices] at hb) List.Pairwise.nil
          · intro i hi
            rcases List.mem_singleton.mp hi with rfl
            exact Nat.le_refl _
          · intro j hj
            rw [firstApplicable, if_pos happ] at hj
            injection hj with hj
            subst hj
            exact List.mem_singleton.mpr rfl
          · intro hj
            rw [firstApplicable, if_pos happ] at hj
            exact Option.noConfusion hj
        split at h
        next e2 hA => exact step e2 _ rfl h
        next hA =>
          split at h
          next e2 hB => exact step e2 _ rfl h
          next hB =>
            split at h
            next ho => exact stop _ rfl h
            next ho => exact step e _ rfl h
          next hB =>
            split at h
            · split at h
              next ho => exact stop _ rfl h
              next ho => exact step e _ rfl h
            · rcases hyp with hk | hall
              · exact NextKind.noConfusion hk
              · rcases hall (path, g) (List.mem_cons_self _ _) e
                  (ctx.req { st with trace := st.trace ++ [Ev.ehInvoked pos e] })
                  st.res with hfin | ⟨e', hthrow⟩
                · rw [hfin] at hB
                  exact Behavior.noConfusion hB
                · rw [hthrow] at hB
                  exact Behavior.noConfusion hB
          next e2 hB =>
            split at h
            · split at h
              next ho => exact stop _ rfl h
              next ho => exact step e _ rfl h
            · rcases hyp with hk | hall
              · exact NextKind.noConfusion hk
              · rcases hall (path, g) (List.mem_cons_self _ _) e
                  (ctx.req { st with trace := st.trace ++ [Ev.ehInvoked pos e] })
                  st.res with hfin | ⟨e', hthrow⟩
                · rw [hfin] at hB
                  exact Behavior.noConfusion hB
                · rw [hthrow] at hB
                  exact Behavior.noConfusion hB
      · rw [if_neg happ] at h
        obtain ⟨st', evs, hout, htrace, herr, hpair, hge, hfirst, hnone⟩ :=
          ih f ctx (pos + 1) e k st out hypR h
        refine ⟨st', evs, hout, htrace, herr, hpair,
          fun i hi => Nat.le_of_succ_le (hge i hi), ?_, ?_⟩
        · intro j hj
          rw [firstApplicable, if_neg happ] at hj
          exact hfirst j hj
        · intro hj
          rw [firstApplicable, if_neg happ] at hj
          exact hnone hj

/-! ## C5 — the error pipeline and the ordinary pipeline -/

/-- C5 (corrected).  When `#executeErrorMiddleware` runs with the no-op
continuation (the route-handler path), it is a single forward pass: it
returns normally, its trace grows only by error-handler invocations,
and the visited handler indices are strictly increasing.  (With the
middleware pipeline's own `next` as continuation the pass can re-enter
the ordinary pipeline — see the counterexample — so the claim's
"regardless of what the error handlers do with their continuation
argument" fails.) -/
theorem errPipeline_noop_single_pass (ctx : Ctx) (fuel : Nat) (e : JsErr)
    (st : St) (out : Outcome)
    (h : execErrMw ctx fuel e .noop st = some out) :
    ∃ st' evs, out = .ok st' ∧ st'.trace = st.trace ++ evs ∧
      (∀ ev ∈ evs, ev.isErrInvocation = true) ∧
      List.Pairwise (· < ·) (ehIndices evs) := by
  cases fuel with
  | zero => simp [execErrMw] at h
  | succ f =>
    simp only [execErrMw] at h
    obtain ⟨st', evs, hout, htrace, herr, hpair, _, _, _⟩ :=
      execErrGo_forward_pass ctx.app.errorMiddleware f ctx 0 e .noop st out (Or.inl rfl) h
    exact ⟨st', evs, hout, htrace, herr, hpair⟩

/-- C5, counterexample to the claim as stated: invoked from the
middleware pipeline (continuation = the pipeline's own `next`), an
error handler calling `next()` resumes the ordinary pipeline — the
error pass's trace contains an ordinary middleware invocation and the
dispatcher entry. -/
theorem errPipeline_reentry_counterexample :
    (execErrMw ctxErrPipe 20 (.str "e0") .pipeline { res := { } }).map
        (fun o => o.state.trace) =
      some [.ehInvoked 0 (.str "e0"), .mwInvoked 0, .dispatched] ∧
    (execErrMw ctxErrPipe 20 (.str "e0") .pipeline { res := { } }).map
        (fun o => o.state.trace.any (fun ev => !ev.isErrInvocation)) = some true :=
  ⟨rfl, rfl⟩

/-- C5, witness: the same application driven through the no-op error
pass — only the error handler runs, once. -/
theorem errPipeline_noop_single_pass_witness :
    ∃ st' evs, Outcome.ok stNoopPass = .ok st' ∧
      st'.trace = ({ res := { } } : St).trace ++ evs ∧
      (∀ ev ∈ evs, ev.isErrInvocation = true) ∧
      List.Pairwise (· < ·) (ehIndices evs) :=
  errPipeline_noop_single_pass ctxErrPipe 20 (.str "e0") { res := { } }
    (.ok stNoopPass) rfl

/-! ## C3 — `next(err)` routes into the error pipeline -/

/-- C3 (corrected).  A middleware calling `next(err)` on an open
response hands control to the error pipeline: provided no error handler
invokes its continuation (the continuation error handlers receive here
is the middleware pipeline's own `next`, so invoking it would resume
ordinary middleware — see the counterexample), the run from that point
invokes only error handlers, in strictly increasing registration order,
and the first handler whose mount path prefixes the raw request URL
receives the signalled error.  No ordinary middleware and no dispatch
occurs, and early handlers that finalize the response cut the pass
short. -/
theorem next_error_skips_to_error_pipeline (ctx : Ctx) (fuel : Nat) (e : JsErr)
    (st : St) (out : Outcome)
    (hnc : NoContApp ctx.app)
    (ho : st.res.ended = false)
    (h : nextFn ctx fuel (some e) st = some out) :
    ∃ st' evs, out = .ok st' ∧ st'.trace = st.trace ++ evs ∧
      (∀ ev ∈ evs, ev.isErrInvocation = true) ∧
      List.Pairwise (· < ·) (ehIndices evs) ∧
      (∀ j, firstApplicable ctx.url ctx.app.errorMiddleware 0 = some j →
        Ev.ehInvoked j e ∈ evs) := by
  cases fuel with
  | zero => simp [nextFn] at h
  | succ f =>
    simp only [nextFn] at h
    rw [if_neg (by rw [ho]; exact Bool.false_ne_true)] at h
    cases f with
    | zero => simp [execErrMw] at h
    | succ f2 =>
      simp only [execErrMw] at h
      obtain ⟨st', evs, hout, htrace, herr, hpair, _, hfirst, _⟩ :=
        execErrGo_forward_pass ctx.app.errorMiddleware f2 ctx 0 e .pipeline st out
          (Or.inr (fun p hp => hnc p hp)) h
      exact ⟨st', evs, hout, htrace, herr, hpair, hfirst⟩

/-- C3, counterexample to the claim as stated: after `next(err)`, the
error handler (which calls `next()`) makes the run invoke the *next
ordinary middleware* and then the route dispatcher — both forbidden by
the claim. -/
theorem next_error_counterexample :
    (handleRequest ctxReenter 20).map (fun o => o.state.trace) =
      some [.mwInvoked 0, .ehInvoked 0 (.str "boom"), .mwInvoked 1, .dispatched] ∧
    (handleRequest ctxReenter 20).map
        (fun o => (decide (Ev.mwInvoked 1 ∈ o.state.trace) &&
          decide (Ev.dispatched ∈ o.state.trace))) = some true :=
  ⟨rfl, rfl⟩

/-! ## C6 — throwing error handlers and the final 500 -/

/-- The `#executeErrorMiddleware` loop over handlers that all throw:
every applicable handler is invoked, each receiving the error thrown by
its applicable predecessor (`chainEvents`), and the exhausted pass ends
the still-open response with the fixed 500. -/
theorem execErrGo_constThrow :
    ∀ (es : List (String × JsErr)) (fuel : Nat) (ctx : Ctx) (pos : Nat) (e : JsErr)
      (k : NextKind) (st : St),
      st.res.ended = false →
      es.length < fuel →
      execErrGo ctx fuel (es.map (fun pe => (pe.1, constThrowE pe.2))) pos e k st =
        some (.ok { st with
          trace := st.trace ++ chainEvents ctx.url es pos e,
          res := sendErrorResponse st.res 500 }) := by
  intro es
  induction es with
  | nil =>
    intro fuel ctx pos e k st ho hfuel
    cases fuel with
    | zero => omega
    | succ f =>
      simp only [List.map_nil, execErrGo, chainEvents]
      rw [if_neg (by rw [ho]; exact Bool.false_ne_true)]
      simp
  | cons pe es ih =>
    intro fuel ctx pos e k st ho hfuel
    obtain ⟨path, e'⟩ := pe
    cases fuel with
    | zero => omega
    | succ f =>
      simp only [List.map_cons, execErrGo, chainEvents]
      by_cases happ : jsStartsWith ctx.url path = true
      · rw [if_pos happ, if_pos happ]
        have hrec := ih f ctx (pos + 1) e' k
          { st with trace := st.trace ++ [Ev.ehInvoked pos e] } ho
          (by simp only [List.length_cons] at hfuel; omega)
        refine hrec.trans ?_
        simp [List.append_assoc]
      · rw [if_neg happ, if_neg happ]
        exact ih f ctx (pos + 1) e k st ho
          (by simp only [List.length_cons] at hfuel; omega)

/-- Every applicable handler index appears in the `chainEvents`
schedule: no handler is skipped because a predecessor failed. -/
theorem chainEvents_complete :
    ∀ (es : List (String × JsErr)) (url : String) (pos : Nat) (e : JsErr) (i : Nat)
      (hi : i < es.length),
      jsStartsWith url (es.get ⟨i, hi⟩).1 = true →
      ∃ carry, Ev.ehInvoked (pos + i) carry ∈ chainEvents url es pos e := by
  intro es
  induction es with
  | nil => intro url pos e i hi; exact absurd hi (by simp)
  | cons pe es ih =>
    intro url pos e i hi hstart
    obtain ⟨path, e'⟩ := pe
    cases i with
    | zero =>
      simp only [List.get] at hstart
      refine ⟨e, ?_⟩
      rw [Nat.add_zero, chainEvents, if_pos hstart]
      exact List.mem_cons_self _ _
    | succ i2 =>
      simp only [List.get] at hstart
      by_cases hs : jsStartsWith url path = true
      · obtain ⟨carry, hmem⟩ := ih url (pos + 1) e' i2 (Nat.lt_of_succ_lt_succ hi) hstart
        refine ⟨carry, ?_⟩
        rw [show pos + (i2 + 1) = (pos + 1) + i2 by omega, chainEvents, if_pos hs]
        exact List.mem_cons_of_mem _ hmem
      · obtain ⟨carry, hmem⟩ := ih url (pos + 1) e i2 (Nat.lt_of_succ_lt_succ hi) hstart
        refine ⟨carry, ?_⟩
        rw [show pos + (i2 + 1) = (pos + 1) + i2 by omega, chainEvents, if_neg hs]
        exact hmem

/-- C6 (confirmed).  With every registered error handler throwing a
fresh error, the pipeline invokes every applicable handler in order —
none skipped because its predecessor failed — each receiving the error
thrown by the previous applicable handler (the `chainEvents` schedule),
and, the sequence exhausted with the response still open, emits the
fixed 500 with the transport's status text. -/
theorem errPipeline_throw_replaces_and_500 (ctx : Ctx) (es : List (String × JsErr))
    (fuel : Nat) (e : JsErr) (k : NextKind) (st : St)
    (happ : ctx.app.errorMiddleware = es.map (fun pe => (pe.1, constThrowE pe.2)))
    (ho : st.res.ended = false) (hh : st.res.headersSent = false)
    (hfuel : es.length + 1 < fuel) :
    execErrMw ctx fuel e k st = some (.ok { st with
        trace := st.trace ++ chainEvents ctx.url es 0 e,
        res := sendErrorResponse st.res 500 }) ∧
    (sendErrorResponse st.res 500).statusCode = 500 ∧
    (sendErrorResponse st.res 500).body = "Internal Server Error" ∧
    (sendErrorResponse st.res 500).ended = true ∧
    (∀ i, (hi : i < es.length) → jsStartsWith ctx.url (es.get ⟨i, hi⟩).1 = true →
      ∃ carry, Ev.ehInvoked i carry ∈ chainEvents ctx.url es 0 e) := by
  refine ⟨?_, ?_, ?_, ?_, ?_⟩
  · cases fuel with
    | zero => omega
    | succ f =>
      simp only [execErrMw, happ]
      exact execErrGo_constThrow es f ctx 0 e k st ho (by omega)
  · simp [sendErrorResponse, hh, Res.endWith, ho, statusCodes]
  · simp [sendErrorResponse, hh, Res.endWith, ho, statusCodes]
  · simp [sendErrorResponse, hh, Res.endWith, ho]
  · intro i hi hs
    have := chainEvents_complete es ctx.url 0 e i hi hs
    simpa using this

/-- C6, witness: two handlers throwing `e1` and `e2` — both invoked,
the second receiving `e1`, then the fixed 500. -/
theorem errPipeline_throw_replaces_and_500_witness :
    execErrMw ctxThrow 20 (.str "e0") .noop { res := { } } =
      some (.ok { ({ res := { } } : St) with
        trace := ({ res := { } } : St).trace ++ chainEvents ctxThrow.url esThrow 0 (.str "e0"),
        res := sendErrorResponse ({ res := { } } : St).res 500 }) ∧
    (sendErrorResponse ({ res := { } } : St).res 500).statusCode = 500 ∧
    (sendErrorResponse ({ res := { } } : St).res 500).body = "Internal Server Error" := by
  have h := errPipeline_throw_replaces_and_500 ctxThrow esThrow 20 (.str "e0") .noop
    { res := { } } rfl rfl rfl (by decide)
  exact ⟨h.1, h.2.1, h.2.2.1⟩

/-- C3, witness: an erroring middleware with a non-continuing error
handler — only that handler runs, receiving the signalled error. -/
theorem next_error_skips_to_error_pipeline_witness :
    ∃ st' evs, Outcome.ok stNoCont = .ok st' ∧
      st'.trace = ({ res := { } } : St).trace ++ evs ∧
      (∀ ev ∈ evs, ev.isErrInvocation = true) ∧
      List.Pairwise (· < ·) (ehIndices evs) ∧
      (∀ j, firstApplicable ctxNoCont.url ctxNoCont.app.errorMiddleware 0 = some j →
        Ev.ehInvoked j (.str "boom") ∈ evs) :=
  next_error_skips_to_error_pipeline ctxNoCont 20 (.str "boom") { res := { } }
    (.ok stNoCont)
    (by
      intro p hp
      have hlist : ctxNoCont.app.errorMiddleware = [("/", ehSends "handled")] := rfl
      rw [hlist] at hp
      have hp' : p = ("/", ehSends "handled") := List.mem_singleton.mp hp
      rw [hp']
      intro e req res
      exact Or.inl rfl)
    rfl rfl

/-! ## C4 — no writes after finalization -/

/-- Response operations performed through the `#setupResponse` helpers
leave a finalized response untouched: `statusCode` assignments are
ineffective after the headers are out, header writes throw, and a
second terminating write is ignored. -/
theorem applyActions_ended :
    ∀ (acts : List ResAction) (res : Res),
      res.ended = true → res.headersSent = true →
      (applyActions acts res).1 = res := by
  intro acts
  induction acts with
  | nil => intro res _ _; rfl
  | cons a as ih =>
    intro res ho hh
    cases a with
    | status c =>
      simp only [applyActions, applyAction, Res.setStatus, hh, if_true]
      exact ih res ho hh
    | setH h v =>
      simp only [applyActions, applyAction, Res.setHeaderE, hh, if_true]
    | send d =>
      cases d with
      | txt s =>
        simp only [applyActions, applyAction, sendResponse, Res.setHeaderE, hh, if_true]
      | val j =>
        simp only [applyActions, applyAction, sendResponse, jsonResponse,
          Res.setHeaderE, hh, if_true]
    | json j =>
      simp only [applyActions, applyAction, jsonResponse, Res.setHeaderE, hh, if_true]

/-- The middleware pipeline's `next` returns immediately — invoking no
further stage — once the response has ended. -/
theorem nextFn_ended (ctx : Ctx) (f : Nat) (errOpt : Option JsErr) (st : St)
    (ho : st.res.ended = true) :
    nextFn ctx (f + 1) errOpt st = some (.ok st) := by
  simp [nextFn, ho]

/-- The error-middleware loop never changes a finalized response, no
matter what the handlers do. -/
theorem execErrGo_ended :
    ∀ (fuel : Nat) (ctx : Ctx) (ehs : List (String × EFun)) (pos : Nat) (e : JsErr)
      (k : NextKind) (st : St) (out : Outcome),
      st.res.ended = true → st.res.headersSent = true →
      execErrGo ctx fuel ehs pos e k st = some out → out.state.res = st.res := by
  intro fuel
  induction fuel with
  | zero => intro ctx ehs pos e k st out _ _ h; simp [execErrGo] at h
  | succ f ih =>
    intro ctx ehs pos e k st out ho hh h
    cases ehs with
    | nil =>
      simp only [execErrGo] at h
      rw [if_pos ho] at h
      injection h with h
      subst h
      rfl
    | cons ph rest =>
      obtain ⟨path, g⟩ := ph
      simp only [execErrGo] at h
      by_cases happ : jsStartsWith ctx.url path = true
      · rw [if_pos happ] at h
        have hres : (applyActions
            (g e (ctx.req { st with trace := st.trace ++ [Ev.ehInvoked pos e] }) st.res).1
            st.res).1 = st.res := applyActions_ended _ st.res ho hh
        rw [hres] at h
        split at h
        next e2 hA =>
          exact ih ctx rest (pos + 1) e2 k
            { st with trace := st.trace ++ [Ev.ehInvoked pos e] } out ho hh h
        next hA =>
          split at h
          next e2 hB =>
            exact ih ctx rest (pos + 1) e2 k
              { st with trace := st.trace ++ [Ev.ehInvoked pos e] } out ho hh h
          next hB =>
            rw [if_pos ho] at h
            injection h with h
            subst h
            rfl
          next hB =>
            split at h
            · rw [if_pos ho] at h
              injection h with h
              subst h
              rfl
            · cases f with
              | zero => simp [nextFn] at h
              | succ f2 =>
                simp only [nextFn_ended ctx f2 none
                  { st with trace := st.trace ++ [Ev.ehInvoked pos e] } ho, ho,
                  if_true, eq_self_iff_true] at h
                injection h with h
                subst h
                rfl
          next e2 hB =>
            split at h
            · rw [if_pos ho] at h
              injection h with h
              subst h
              rfl
            · cases f with
              | zero => simp [nextFn] at h
              | succ f2 =>
                simp only [nextFn_ended ctx f2 (some e2)
                  { st with trace := st.trace ++ [Ev.ehInvoked pos e] } ho, ho,
                  if_true, eq_self_iff_true] at h
                injection h with h
                subst h
                rfl
      · rw [if_neg happ] at h
        exact ih ctx rest (pos + 1) e k st out ho hh h

/-- `#executeErrorMiddleware` never changes a finalized response. -/
theorem execErrMw_ended (fuel : Nat) (ctx : Ctx) (e : JsErr) (k : NextKind) (st : St)
    (out : Outcome) (ho : st.res.ended = true) (hh : st.res.headersSent = true)
    (h : execErrMw ctx fuel e k st = some out) : out.state.res = st.res := by
  cases fuel with
  | zero => simp [execErrMw] at h
  | succ f =>
    simp only [execErrMw] at h
    exact execErrGo_ended f ctx ctx.app.errorMiddleware 0 e k st out ho hh h

/-- The route-handler chain has no `writableEnded` check — handlers
after a terminal send are still invoked — but none of them can change
the finalized response. -/
theorem execRH_ended :
    ∀ (fuel : Nat) (ctx : Ctx) (hs : List HFun) (pos : Nat) (st : St) (out : Outcome),
      st.res.ended = true → st.res.headersSent = true →
      execRH ctx fuel hs pos st = some out → out.state.res = st.res := by
  intro fuel
  induction fuel with
  | zero => intro ctx hs pos st out _ _ h; simp [execRH] at h
  | succ f ih =>
    intro ctx hs pos st out ho hh h
    simp only [execRH] at h
    split at h
    next hget =>
      injection h with h
      subst h
      rfl
    next hf hget =>
      have hres : (applyActions
          (hf (ctx.req { st with trace := st.trace ++ [Ev.rhInvoked pos] }) st.res).1
          st.res).1 = st.res := applyActions_ended _ st.res ho hh
      rw [hres] at h
      split at h
      next e2 hA =>
        injection h with h
        subst h
        rfl
      next hA =>
        split at h
        next e2 hB =>
          injection h with h
          subst h
          rfl
        next hB =>
          injection h with h
          subst h
          rfl
        next hB =>
          exact ih ctx hs (pos + 1)
            { st with trace := st.trace ++ [Ev.rhInvoked pos] } out ho hh h
        next e2 hB =>
          exact execErrMw_ended f ctx e2 .noop
            { st with trace := st.trace ++ [Ev.rhInvoked pos] } out ho hh h

/-- C4 (confirmed).  Once a response is finalized (terminal send
issued, headers flushed): the middleware pipeline's `next` short-
circuits without invoking any further stage; the error pipeline and the
route-handler chain, which can still be entered, leave the response
bytes untouched; and every response operation a stage could attempt is
a no-op with respect to the response. -/
theorem finalized_response_stable (ctx : Ctx) (fuel : Nat) (st : St)
    (ho : st.res.ended = true) (hh : st.res.headersSent = true) :
    (∀ errOpt, nextFn ctx (fuel + 1) errOpt st = some (.ok st))
    ∧ (∀ e k out, execErrMw ctx fuel e k st = some out → out.state.res = st.res)
    ∧ (∀ hs pos out, execRH ctx fuel hs pos st = some out → out.state.res = st.res)
    ∧ (∀ acts, (applyActions acts st.res).1 = st.res) :=
  ⟨fun errOpt => nextFn_ended ctx fuel errOpt st ho,
   fun e k out h => execErrMw_ended fuel ctx e k st out ho hh h,
   fun hs pos out h => execRH_ended fuel ctx hs pos st out ho hh h,
   fun acts => applyActions_ended acts st.res ho hh⟩

/-- C4, witness: a finalized state passes through `next` unchanged, a
late `send` is a no-op, and in a full run a middleware that sends and
then calls `next()` leaves the second middleware uninvoked and the body
intact. -/
theorem finalized_response_stable_witness :
    nextFn ctxPlain 6 none stEnded = some (.ok stEnded) ∧
    (applyActions [.send (.txt "late")] stEnded.res).1 = stEnded.res ∧
    (handleRequest ctxSendNext 20).map (fun o => (o.state.res.body, o.state.trace)) =
      some ("first", [.mwInvoked 0]) := by
  have h := finalized_response_stable ctxPlain 5 stEnded rfl rfl
  exact ⟨h.1 none, h.2.2.2 [.send (.txt "late")], rfl⟩

end MyExpress
